import Mathlib

/-!
Verification of the Archiveopteryx protocol/server core specification
against its C++ sources, by shallow embedding of the relevant code in
Lean 4.  Each embedded definition names the source function it models;
theorems settle the spec claims about those functions.
-/

namespace Aox

/-! ## Query placeholders and bind indices (src/imap/handlers/expunge.cpp,
    src/server/selector.cpp)

    A Query holds an SQL template whose parameters appear as literal
    placeholders written as a dollar sign followed by a decimal number,
    and a sequence of bind() calls, each naming the index it binds.  We
    scan the SQL text for placeholder indices with a small character
    state machine. -/

/-- State of the placeholder scanner: outside a placeholder, just after a
    dollar sign, or inside the digits of a placeholder (accumulating its
    value). -/
inductive PhState where
  | noPh
  | afterDollar
  | inNum (n : Nat)

/-- Scans a character list for dollar-number placeholders and returns the
    indices in order of occurrence. -/
def phAux : List Char → PhState → List Nat
  | [], .inNum n => [n]
  | [], _ => []
  | c :: rest, .noPh =>
      if c = '$' then phAux rest .afterDollar else phAux rest .noPh
  | c :: rest, .afterDollar =>
      if c.isDigit then phAux rest (.inNum (c.toNat - 48))
      else if c = '$' then phAux rest .afterDollar
      else phAux rest .noPh
  | c :: rest, .inNum n =>
      if c.isDigit then phAux rest (.inNum (10 * n + (c.toNat - 48)))
      else n :: phAux rest (if c = '$' then .afterDollar else .noPh)

/-- The set (as a list, in order of occurrence) of placeholder indices
    referenced in an SQL string. -/
def placeholders (sql : String) : List Nat := phAux sql.data .noPh

/-- An embedded Query: the SQL template text and the indices passed to
    bind(), in call order. -/
structure EmbQuery where
  sql : String
  binds : List Nat

/-- The invariant claimed by the spec for every Query: the set of
    placeholders referenced in the SQL equals the set of indices passed to
    bind(), no index is bound twice, and the placeholders are numbered
    1..N where N is the number of bind() calls. -/
def queryRespectsBinds (q : EmbQuery) : Prop :=
  (placeholders q.sql).toFinset = q.binds.toFinset ∧
  q.binds.Nodup ∧
  (placeholders q.sql).toFinset = Finset.Icc 1 q.binds.length

instance (q : EmbQuery) : Decidable (queryRespectsBinds q) := by
  unfold queryRespectsBinds; infer_instance

/-- Embeds the first query of Expunge::execute (expunge.cpp:108-111):
    select nextmodseq for update, binding the mailbox id to index 1. -/
def findModseqQuery : EmbQuery :=
  { sql := "select nextmodseq from mailboxes where id=$1 for update"
    binds := [1] }

/-- Embeds the second query of Expunge::execute (expunge.cpp:113-120):
    find the uids flagged deleted.  For UID EXPUNGE the where-clause of
    the parsed uid set is appended; MessageSet::where (not under src/)
    emits literal uid comparisons, so the appended text `w` is
    placeholder-free.  Indices 1 and 2 are bound. -/
def findUidsQuery (uid : Bool) (w : String) : EmbQuery :=
  { sql := "select uid from flags where mailbox=$1 and flag=$2" ++
             (if uid then " and (" ++ w ++ ")" else "")
    binds := [1, 2] }

/-- Embeds the third query of Expunge::execute (expunge.cpp:145-151): the
    modseq update.  The source runs q->bind( 1, mailbox id ) and then
    q->bind( 1, d->modseq ): both bind calls name index 1, although the
    SQL text references both placeholders 1 and 2. -/
def modseqUpdateQuery (w : String) : EmbQuery :=
  { sql := "update mailbox_messages set modseq=$2 where mailbox=$1 and (" ++
             w ++ ")"
    binds := [1, 1] }

/-- Embeds the fourth query of Expunge::execute (expunge.cpp:153-163):
    copy the expunged rows into deleted_messages, binding 1, 2, 3. -/
def expungeInsertQuery (w : String) : EmbQuery :=
  { sql := "insert into deleted_messages " ++
             "(mailbox, uid, message, deleted_by, reason) " ++
             "select mailbox, uid, message, $2, $3 " ++
             "from mailbox_messages where mailbox=$1 and (" ++ w ++ ")"
    binds := [1, 2, 3] }

/-- Embeds the fifth query of Expunge::execute (expunge.cpp:165-169):
    advance the mailbox nextmodseq, binding 1 and 2. -/
def nextModseqUpdateQuery : EmbQuery :=
  { sql := "update mailboxes set nextmodseq=$1 where id=$2"
    binds := [1, 2] }

/-- The queries enqueued by the EXPUNGE command's transaction, in enqueue
    order (expunge.cpp:100-170). -/
def expungeTransactionQueries (uid : Bool) (w : String) : List EmbQuery :=
  [findModseqQuery, findUidsQuery uid w, modseqUpdateQuery w,
   expungeInsertQuery w, nextModseqUpdateQuery]

/-- C1: the spec invariant says that for every Query the set of
    placeholders in the SQL equals the set of bound indices, numbered
    1..N.  The modseq-update query enqueued by EXPUNGE (here evaluated
    for a one-message uid set, w = "uid=7") violates it: its SQL
    references placeholders 1 and 2 but the code binds index 1 twice
    (expunge.cpp:149-150) and index 2 never, so the claim is right and
    the code slipped (compare the symmetric bind( 1 )/bind( 2 ) pair at
    expunge.cpp:165-168). -/
theorem expunge_modseq_update_unbound_placeholder :
    (placeholders (modseqUpdateQuery "uid=7").sql).toFinset =
      ({1, 2} : Finset Nat) ∧
    (modseqUpdateQuery "uid=7").binds.toFinset = ({1} : Finset Nat) ∧
    ¬ queryRespectsBinds (modseqUpdateQuery "uid=7") := by
  refine ⟨by decide, by decide, by decide⟩

/-- The remaining four queries of the EXPUNGE transaction do respect the
    bind invariant (evaluated at the same concrete uid set). -/
theorem expunge_other_queries_respect_binds :
    queryRespectsBinds findModseqQuery ∧
    queryRespectsBinds (findUidsQuery true "uid=7") ∧
    queryRespectsBinds (findUidsQuery false "uid=7") ∧
    queryRespectsBinds (expungeInsertQuery "uid=7") ∧
    queryRespectsBinds nextModseqUpdateQuery := by
  refine ⟨by decide, by decide, by decide, by decide, by decide⟩

/-! ## ManageSieve string encoding (src/sieve/managesievecommand.cpp:759-779)

    ManageSieveCommand::encoded chooses between the quoted and the
    literal representation of a protocol string.  C++ String is a byte
    string; we model it as a list of characters. -/

/-- Embeds String::quoted (string.cpp:603-617): wrap the string in the
    quote character `c` and prefix every occurrence of `c` or `q` with
    the escape character `q`. -/
def cppQuoted (c q : Char) (s : List Char) : List Char :=
  c :: ((s.map (fun ch => if ch = c ∨ ch = q then [q, ch] else [ch])).flatten
        ++ [c])

/-- A character the encoder allows inside a quoted string: not NUL, CR or
    LF (managesievecommand.cpp:766). -/
def msOkChar (ch : Char) : Bool :=
  !(ch == Char.ofNat 0 || ch == Char.ofNat 13 || ch == Char.ofNat 10)

/-- Embeds ManageSieveCommand::encoded (managesievecommand.cpp:759-779):
    prefer the quoted form; fall back to a non-synchronizing literal when
    the string is longer than 1024 bytes or contains NUL, CR or LF.  The
    literal is an opening brace, the decimal length, a plus sign, a
    closing brace, CRLF and the raw bytes. -/
def msEncoded (input : List Char) : List Char :=
  if input.length ≤ 1024 ∧ input.all msOkChar then
    cppQuoted (Char.ofNat 34) (Char.ofNat 92) input
  else
    Char.ofNat 123 :: ((Nat.repr input.length).data ++
      (Char.ofNat 43 :: Char.ofNat 125 :: Char.ofNat 13 :: Char.ofNat 10 ::
        input))

/-- C10: a ManageSieve protocol string is sent quoted if and only if it
    is at most 1024 characters long and free of NUL, CR and LF;
    otherwise it is sent as the non-synchronizing literal consisting of
    an opening brace, the decimal length N, "+", a closing brace, CRLF
    and the N raw bytes. -/
theorem msEncoded_quoted_iff (input : List Char) :
    (msEncoded input = cppQuoted (Char.ofNat 34) (Char.ofNat 92) input ↔
      (input.length ≤ 1024 ∧
        ∀ ch ∈ input,
          ch ≠ Char.ofNat 0 ∧ ch ≠ Char.ofNat 13 ∧ ch ≠ Char.ofNat 10)) ∧
    (¬ (input.length ≤ 1024 ∧
        ∀ ch ∈ input,
          ch ≠ Char.ofNat 0 ∧ ch ≠ Char.ofNat 13 ∧ ch ≠ Char.ofNat 10) →
      msEncoded input = Char.ofNat 123 :: ((Nat.repr input.length).data ++
        (Char.ofNat 43 :: Char.ofNat 125 :: Char.ofNat 13 :: Char.ofNat 10 ::
          input))) := by
  have hiff : (input.length ≤ 1024 ∧ input.all msOkChar = true) ↔
      (input.length ≤ 1024 ∧
        ∀ ch ∈ input,
          ch ≠ Char.ofNat 0 ∧ ch ≠ Char.ofNat 13 ∧ ch ≠ Char.ofNat 10) := by
    constructor
    · rintro ⟨h1, h2⟩
      refine ⟨h1, fun ch hch => ?_⟩
      have := List.all_eq_true.mp h2 ch hch
      simp only [msOkChar, Bool.not_eq_true', Bool.or_eq_false_iff,
        beq_eq_false_iff_ne] at this
      exact ⟨this.1.1, this.1.2, this.2⟩
    · rintro ⟨h1, h2⟩
      refine ⟨h1, List.all_eq_true.mpr fun ch hch => ?_⟩
      have := h2 ch hch
      simp only [msOkChar, Bool.not_eq_true', Bool.or_eq_false_iff,
        beq_eq_false_iff_ne]
      exact ⟨⟨this.1, this.2.1⟩, this.2.2⟩
  by_cases h : input.length ≤ 1024 ∧ input.all msOkChar = true
  · constructor
    · rw [msEncoded, if_pos h]
      exact ⟨fun _ => hiff.mp h, fun _ => rfl⟩
    · intro hcon
      exact absurd (hiff.mp h) hcon
  · constructor
    · rw [msEncoded, if_neg h]
      constructor
      · intro heq
        have : Char.ofNat 123 = Char.ofNat 34 := List.head_eq_of_cons_eq heq
        exact absurd (congrArg Char.toNat this) (by decide)
      · intro hp
        exact absurd (hiff.mpr hp) h
    · intro _
      rw [msEncoded, if_neg h]

/-- Witness for C10: the one-character string "a" is sent quoted, and a
    string containing CR is sent as a literal. -/
theorem msEncoded_quoted_iff_witness :
    msEncoded [Char.ofNat 97] =
      cppQuoted (Char.ofNat 34) (Char.ofNat 92) [Char.ofNat 97] ∧
    msEncoded [Char.ofNat 13] =
      Char.ofNat 123 :: ((Nat.repr 1).data ++
        (Char.ofNat 43 :: Char.ofNat 125 :: Char.ofNat 13 :: Char.ofNat 10 ::
          [Char.ofNat 13])) :=
  ⟨(msEncoded_quoted_iff [Char.ofNat 97]).1.mpr (by decide),
   (msEncoded_quoted_iff [Char.ofNat 13]).2 (by decide)⟩

/-! ## Body full-text search condition (src/server/selector.cpp:739-1005)

    Selector::whereBody emits the SQL condition for an IMAP BODY search
    leaf.  Placeholder numbers come from Selector::placeHolder, a counter
    starting at 0 whose first value is 1 (selector.cpp:287-296). -/

/-- Embeds the C++ fn() helper: decimal rendering of a number. -/
def fn (n : Nat) : String := Nat.repr n

/-- Embeds matchAny (selector.cpp:739-742): an ilike pattern surrounding
    placeholder n with percent signs. -/
def matchAny (n : Nat) : String := "'%'||$" ++ fn n ++ "||'%'"

/-- Embeds the static q() helper (selector.cpp:745-760): escapes
    backslash, underscore and percent with a backslash, for use in like
    patterns. -/
def likeEscaped (s : String) : String :=
  ⟨(s.data.map
      (fun ch => if ch = '\\' ∨ ch = '_' ∨ ch = '%' then ['\\', ch] else [ch])
    ).flatten⟩

/-- Embeds matchTsvector (selector.cpp:963-975): the full-text condition,
    which guards the column length below 1024*1024 before applying
    to_tsvector with the detected configuration. -/
def matchTsvector (tscfg col : String) (n : Nat) : String :=
  "length(" ++ col ++ ")<1024*1024 and to_tsvector(" ++ tscfg ++ ", " ++
    col ++ ") @@ plainto_tsquery($" ++ fn n ++ ")"

/-- Result of compiling the Body leaf: the SQL condition, the placeholder
    counter afterwards, and the single bind it performed. -/
structure BodyResult where
  sql : String
  placeholder : Nat
  bind : Nat × String

/-- Embeds Selector::whereBody (selector.cpp:989-1005): allocate one
    placeholder, bind the like-escaped search string to it, and emit
    either the tsvector-guarded conjunction (when a suitable GIN index
    was detected) or the plain ilike condition. -/
def whereBody (tsearch : Bool) (tscfg : String) (ph : Nat) (s16 : String) :
    BodyResult :=
  let bt := ph + 1
  { sql :=
      if tsearch then
        "(" ++ matchTsvector tscfg "bp.text" bt ++ " and bp.text ilike " ++
          matchAny bt ++ ")"
      else
        "bp.text ilike " ++ matchAny bt
    placeholder := bt
    bind := (bt, likeEscaped s16) }

/-- The condition the claim says whereBody emits when a GIN index exists,
    built from the claim's words (for comparison with the source). -/
def claimedBodyCondition (tscfg : String) (n : Nat) : String :=
  "to_tsvector(" ++ tscfg ++ ", bp.text) @@ plainto_tsquery($" ++ fn n ++
    ") and bp.text ilike '%'||$" ++ fn n ++ "||'%'"

/-- C2 counterexample: with a GIN index present the emitted Body
    condition is not exactly the claimed conjunction: the source
    additionally guards length(bp.text)<1024*1024 and parenthesizes the
    whole condition (selector.cpp:963-975). -/
theorem whereBody_not_claimed_form :
    (whereBody true "'english'::regconfig" 0 "hello").sql ≠
      claimedBodyCondition "'english'::regconfig" 1 := by
  decide

/-- C2 amended: with the placeholder counter at 0 and the detected
    configuration 'english'::regconfig, the Body condition emitted under
    a GIN index is the parenthesized conjunction of the length guard, the
    tsquery match and the ilike filter, all through placeholder 1, whose
    bound value is the like-escaped search string; without the index it
    is the plain ilike condition with the same single bind. -/
theorem whereBody_emits_guarded_tsquery (s16 : String) :
    (whereBody true "'english'::regconfig" 0 s16).sql =
      "(length(bp.text)<1024*1024 and to_tsvector('english'::regconfig, " ++
        "bp.text) @@ plainto_tsquery($1) and bp.text ilike '%'||$1||'%')" ∧
    (whereBody true "'english'::regconfig" 0 s16).bind = (1, likeEscaped s16) ∧
    (whereBody false "'english'::regconfig" 0 s16).sql =
      "bp.text ilike '%'||$1||'%'" ∧
    (whereBody false "'english'::regconfig" 0 s16).bind =
      (1, likeEscaped s16) := by
  exact ⟨rfl, rfl, rfl, rfl⟩

/-! ## COMPRESS=DEFLATE (src/imap/handlers/compress.cpp:160-175) -/

/-- Embeds String::lower for ASCII (string.cpp): maps A-Z to a-z. -/
def asciiLower (s : String) : String :=
  ⟨s.data.map
    (fun ch =>
      if 'A' ≤ ch ∧ ch ≤ 'Z' then Char.ofNat (ch.toNat + 32) else ch)⟩

/-- The connection state COMPRESS manipulates: the write buffer (each
    chunk tagged with whether a deflate filter was installed when it was
    appended), and the two filter chains. -/
structure IMAPConn where
  writeChunks : List (Bool × String)
  readFilters : List String
  writeFilters : List String

/-- Appends response bytes to the write buffer, recording whether they
    pass through an installed deflate filter. -/
def enqueueResp (c : IMAPConn) (s : String) : IMAPConn :=
  { c with
    writeChunks :=
      c.writeChunks ++ [(c.writeFilters.any (fun f => f == "deflate"), s)] }

/-- Modelled from the spec: Command::emitResponses (imap/command.cpp is
    not under src/) writes the command's pending responses, ending with
    the tagged completion line, into the connection's write buffer. -/
def emitResponsesSpec (taggedOK : String) (c : IMAPConn) : IMAPConn :=
  enqueueResp c taggedOK

/-- Embeds Compress::execute (compress.cpp:160-175): an argument other
    than "deflate" (case-insensitively) is a Bad error and changes
    nothing; otherwise the responses are emitted first, then an inflate
    filter is added to the read buffer and a deflate filter to the write
    buffer. -/
def compressExecute (arg taggedOK : String) (c : IMAPConn) : IMAPConn :=
  if asciiLower arg ≠ "deflate" then c
  else
    let c1 := emitResponsesSpec taggedOK c
    let c2 := { c1 with readFilters := "inflate" :: c1.readFilters }
    { c2 with writeFilters := c2.writeFilters ++ ["deflate"] }

/-- C3: for a successful COMPRESS DEFLATE on a connection without a
    deflate filter, the tagged OK bytes are appended to the write buffer
    before the deflate filter is installed (so they are recorded as
    plaintext, flag false), and only afterwards are the inflate and
    deflate filters installed on the two chains. -/
theorem compress_ok_written_before_filters (arg taggedOK : String)
    (c : IMAPConn) (h : asciiLower arg = "deflate")
    (hnd : (c.writeFilters.any (fun f => f == "deflate")) = false) :
    (compressExecute arg taggedOK c).writeChunks =
      c.writeChunks ++ [(false, taggedOK)] ∧
    (compressExecute arg taggedOK c).writeFilters =
      c.writeFilters ++ ["deflate"] ∧
    (compressExecute arg taggedOK c).readFilters =
      "inflate" :: c.readFilters := by
  have hcond : ¬ (asciiLower arg ≠ "deflate") := by simp [h]
  refine ⟨?_, ?_, ?_⟩ <;>
    simp [compressExecute, if_neg hcond, emitResponsesSpec, enqueueResp, hnd]

/-- Witness for C3: a concrete successful COMPRESS DEFLATE. -/
theorem compress_ok_written_before_filters_witness :
    (compressExecute "DEFLATE" "a5 OK deflate active\r\n"
        ⟨[], [], []⟩).writeChunks = [(false, "a5 OK deflate active\r\n")] ∧
    (compressExecute "DEFLATE" "a5 OK deflate active\r\n"
        ⟨[], [], []⟩).writeFilters = ["deflate"] ∧
    (compressExecute "DEFLATE" "a5 OK deflate active\r\n"
        ⟨[], [], []⟩).readFilters = ["inflate"] := by
  have h := compress_ok_written_before_filters "DEFLATE"
    "a5 OK deflate active\r\n" ⟨[], [], []⟩ (by decide) (by decide)
  simpa using h

/-! ## Postgres IDENT-rejection reconnect (src/db/postgres.cpp:502-561) -/

/-- The message text that identifies an IDENT rejection
    (postgres.cpp:527-528). -/
def identNeedle : String := "IDENT authentication failed for user \""

/-- Boolean string prefix test over the character lists. -/
def strStarts (s pre : String) : Bool := s.data.take pre.data.length == pre.data

/-- Embeds the quoted-name extraction of postgres.cpp:529-532: the text
    between the first two double quotes (or the rest of the string if the
    second quote is missing). -/
def extractQuotedUser (msg : String) : String :=
  ⟨((msg.data.dropWhile (fun ch => ch ≠ '"')).drop 1).takeWhile
      (fun ch => ch ≠ '"')⟩

/-- The part of the PgConnection state that the IDENT workaround uses:
    whether the one allowed reconnect has been consumed
    (postgres.cpp:39,48 identBreakageSeen). -/
structure PgIdentState where
  identBreakageSeen : Bool
deriving DecidableEq

/-- The externally visible actions the Fatal-error handler can take. -/
inductive PgAction where
  | close
  | connectTo
  | logRetry
  | logDisaster
  | logFaq
  | errorQueryFailAndClose
deriving DecidableEq

/-- Embeds the Panic/Fatal branch of Postgres::unknown for an E message
    (postgres.cpp:522-561): an IDENT rejection whose quoted user is the
    configured jail user, on a non-Unix (TCP) socket, with the security
    toggle enabled and the workaround not yet used, closes and reconnects
    once, marking the workaround used; any other IDENT rejection logs a
    Disaster; a non-IDENT fatal message fails the connection. -/
def pgFatalError (jailUser : String) (isUnix security : Bool) (msg : String)
    (st : PgIdentState) : List PgAction × PgIdentState :=
  if strStarts msg identNeedle then
    if extractQuotedUser msg = jailUser ∧ isUnix = false ∧ security = true ∧
        st.identBreakageSeen = false then
      ([.logRetry, .close, .connectTo], { identBreakageSeen := true })
    else
      ([.logDisaster, .logFaq], st)
  else
    ([.errorQueryFailAndClose], st)

/-- A concrete IDENT rejection message for the default jail user. -/
def identMsgArchiveopteryx : String :=
  "IDENT authentication failed for user \"archiveopteryx\""

/-- C4 counterexample: the reconnect also requires the use-security
    configuration toggle, which the claim omits.  With security disabled,
    the very first IDENT rejection on a TCP socket for the jail user
    logs a Disaster and never reconnects. -/
theorem pg_ident_no_retry_without_security :
    (pgFatalError "archiveopteryx" false false identMsgArchiveopteryx
        ⟨false⟩).1 = [.logDisaster, .logFaq] ∧
    (pgFatalError "archiveopteryx" false false identMsgArchiveopteryx
        ⟨false⟩).2 = ⟨false⟩ ∧
    PgAction.connectTo ∉
      (pgFatalError "archiveopteryx" false false identMsgArchiveopteryx
        ⟨false⟩).1 := by
  decide

/-- C4 amended: provided the security toggle is enabled, a TCP
    PgConnection receiving a fatal IDENT rejection for the configured
    jail user closes and reconnects exactly once: the first rejection
    yields close-then-connect and consumes the workaround; a second
    identical rejection logs a Disaster and does not retry. -/
theorem pg_ident_reconnect_exactly_once (jailUser msg : String)
    (h1 : strStarts msg identNeedle = true)
    (h2 : extractQuotedUser msg = jailUser) :
    (pgFatalError jailUser false true msg ⟨false⟩).1 =
      [.logRetry, .close, .connectTo] ∧
    (pgFatalError jailUser false true msg ⟨false⟩).2 = ⟨true⟩ ∧
    (pgFatalError jailUser false true msg ⟨true⟩).1 =
      [.logDisaster, .logFaq] ∧
    (pgFatalError jailUser false true msg ⟨true⟩).2 = ⟨true⟩ ∧
    PgAction.connectTo ∉ (pgFatalError jailUser false true msg ⟨true⟩).1 := by
  refine ⟨?_, ?_, ?_, ?_, ?_⟩ <;>
    simp [pgFatalError, h1, h2]

/-- Witness for C4: the canonical rejection message for the default jail
    user, processed twice. -/
theorem pg_ident_reconnect_exactly_once_witness :
    (pgFatalError "archiveopteryx" false true identMsgArchiveopteryx
        ⟨false⟩).1 = [.logRetry, .close, .connectTo] ∧
    (pgFatalError "archiveopteryx" false true identMsgArchiveopteryx
        ⟨false⟩).2 = ⟨true⟩ ∧
    (pgFatalError "archiveopteryx" false true identMsgArchiveopteryx
        ⟨true⟩).1 = [.logDisaster, .logFaq] ∧
    (pgFatalError "archiveopteryx" false true identMsgArchiveopteryx
        ⟨true⟩).2 = ⟨true⟩ ∧
    PgAction.connectTo ∉
      (pgFatalError "archiveopteryx" false true identMsgArchiveopteryx
        ⟨true⟩).1 := by
  exact pg_ident_reconnect_exactly_once "archiveopteryx"
    identMsgArchiveopteryx (by decide) (by decide)

/-! ## ManageSieve PUTSCRIPT and DELETESCRIPT
    (src/sieve/managesievecommand.cpp:351-477, 607-648) -/

/-- The tagged reply of a ManageSieve command: OK or NO, with the
    response text (ManageSieveCommand::execute, lines 213-229). -/
inductive MSReply where
  | ok (msg : String)
  | no (msg : String)
deriving DecidableEq

/-- String::quoted with the default quote and escape characters. -/
def strQuoted (s : String) : String :=
  ⟨cppQuoted (Char.ofNat 34) (Char.ofNat 92) s.data⟩

/-- The database operations putScript can enqueue, in enqueue order. -/
inductive StoreOp where
  | selectScriptForUpdate (owner : Nat) (name : String)
  | createMailbox (name : String)
  | updateScript (owner : Nat) (name script : String)
  | insertScript (owner : Nat) (name script : String)
deriving DecidableEq

/-- The context putScript runs in.  The Sieve text parser and the
    mailbox tree are outside this embedding, so the outcome of
    SieveScript::parse/parseErrors, the set of fileinto targets that must
    be auto-created, the first target outside the user's home (if any)
    and whether a script row with this name already exists are inputs. -/
structure PutScriptEnv where
  owner : Nat
  home : String
  parseErrors : String
  outsideHomeMailbox : Option String
  toCreate : List String
  rowExists : Bool

/-- The OK text listing the auto-created mailboxes
    (managesievecommand.cpp:468-474). -/
def createdMsg (l : List String) : String :=
  String.intercalate "\r\n"
    (l.map (fun m => "Created mailbox " ++ strQuoted m ++ "."))

/-- Embeds ManageSieveCommand::putScript (managesievecommand.cpp:351-477):
    an empty script or a script with parse errors is refused with NO and
    nothing is enqueued; an empty name is the syntax-check hack, replying
    OK without storing; a fileinto target outside the user's home refuses
    the upload; otherwise the script row is selected for update, missing
    home mailboxes are created, and the script is stored by update (when
    a row exists) or insert. -/
def putScript (env : PutScriptEnv) (name script : String) :
    MSReply × List StoreOp :=
  if script = "" then (.no "Script cannot be empty", [])
  else if env.parseErrors ≠ "" then (.no env.parseErrors, [])
  else if name = "" then (.ok "", [])
  else
    match env.outsideHomeMailbox with
    | some m =>
        (.no ("Script refers to mailbox " ++ strQuoted m ++
          ", which does not exist and is outside your home directory (" ++
          strQuoted env.home ++ ")"), [])
    | none =>
        (.ok (createdMsg env.toCreate),
         StoreOp.selectScriptForUpdate env.owner name ::
           env.toCreate.map StoreOp.createMailbox ++
           [if env.rowExists then StoreOp.updateScript env.owner name script
            else StoreOp.insertScript env.owner name script])

/-- C8 counterexample: a PUTSCRIPT with an empty script name and a script
    that parses cleanly is the syntax-check mode: it replies OK but
    stores nothing (managesievecommand.cpp:369-373), contradicting the
    claim that every PUTSCRIPT whose script parses stores the script. -/
theorem putScript_syntax_check_stores_nothing :
    (putScript ⟨1, "/users/u", "", Option.none, [], false⟩ "" "keep;").1 =
      MSReply.ok "" ∧
    (putScript ⟨1, "/users/u", "", Option.none, [], false⟩ "" "keep;").2 =
      [] := by
  decide

/-- C8 amended: a nonempty script with parse errors is refused with NO
    carrying the error text and nothing is enqueued; a script that parses
    is stored - replacing any existing row of the same name by update,
    otherwise by insert - provided its name is nonempty (otherwise only
    the syntax is checked) and no fileinto target lies outside the user's
    home (otherwise NO, storing nothing). -/
theorem putScript_behaviour (env : PutScriptEnv) (name script : String) :
    (script ≠ "" → env.parseErrors ≠ "" →
      putScript env name script = (.no env.parseErrors, [])) ∧
    (script ≠ "" → env.parseErrors = "" → name ≠ "" →
      env.outsideHomeMailbox = Option.none →
      putScript env name script =
        (.ok (createdMsg env.toCreate),
         StoreOp.selectScriptForUpdate env.owner name ::
           env.toCreate.map StoreOp.createMailbox ++
           [if env.rowExists then StoreOp.updateScript env.owner name script
            else StoreOp.insertScript env.owner name script])) ∧
    (script ≠ "" → env.parseErrors = "" → name ≠ "" →
      ∀ m, env.outsideHomeMailbox = some m →
        (putScript env name script).2 = []) := by
  refine ⟨?_, ?_, ?_⟩
  · intro hs hp
    simp [putScript, hs, hp]
  · intro hs hp hn hout
    simp [putScript, hs, hp, hn, hout]
  · intro hs hp hn m hout
    simp [putScript, hs, hp, hn, hout]

/-- Witness for C8: a parse error is reported and nothing stored; a clean
    script with a name is inserted. -/
theorem putScript_behaviour_witness :
    putScript ⟨1, "/users/u", "line 1: error", Option.none, [], false⟩
        "r" "junk" = (.no "line 1: error", []) ∧
    putScript ⟨1, "/users/u", "", Option.none, [], false⟩ "r"
        "keep;" =
      (.ok "", [StoreOp.selectScriptForUpdate 1 "r",
                StoreOp.insertScript 1 "r" "keep;"]) := by
  constructor
  · exact (putScript_behaviour ⟨1, "/users/u", "line 1: error",
      Option.none, [], false⟩ "r" "junk").1 (by decide) (by decide)
  · have h := (putScript_behaviour ⟨1, "/users/u", "",
      Option.none, [], false⟩ "r" "keep;").2.1 (by decide) rfl (by decide) rfl
    simpa [createdMsg] using h

/-- One row of the scripts table, as far as deleteScript observes it. -/
structure ScriptRow where
  owner : Nat
  name : String
  active : Bool
deriving DecidableEq

/-- Embeds ManageSieveCommand::deleteScript
    (managesievecommand.cpp:607-648): one transaction runs a select of
    the named row followed by a delete restricted to inactive rows
    (delete from scripts where owner=$1 and name=$2 and active='f');
    afterwards a missing row replies NO "No such script", an active row
    replies NO "Can't delete active script", and otherwise the command
    succeeds. -/
def deleteScriptRun (table : List ScriptRow) (owner : Nat) (name : String) :
    MSReply × List ScriptRow :=
  let sel := table.find? (fun r => r.owner == owner && r.name == name)
  let table1 := table.filter
    (fun r => !(r.owner == owner && r.name == name && r.active == false))
  match sel with
  | Option.none => (.no "No such script", table1)
  | some r =>
      if r.active then (.no "Can't delete active script", table1)
      else (.ok "", table1)

/-- C9: on a table whose (owner, name) pairs are unique, DELETESCRIPT of
    the user's active script replies NO and leaves the table unchanged;
    and whenever DELETESCRIPT changes the table at all, the named script
    existed and was not active. -/
theorem deleteScript_refuses_active (table : List ScriptRow) (owner : Nat)
    (name : String)
    (huniq : ∀ r1 ∈ table, ∀ r2 ∈ table,
      r1.owner = owner → r1.name = name → r2.owner = owner →
      r2.name = name → r1 = r2) :
    (∀ r ∈ table, r.owner = owner → r.name = name → r.active = true →
      (deleteScriptRun table owner name).1 =
          MSReply.no "Can't delete active script" ∧
        (deleteScriptRun table owner name).2 = table) ∧
    ((deleteScriptRun table owner name).2 ≠ table →
      ∃ r ∈ table, r.owner = owner ∧ r.name = name ∧ r.active = false) := by
  constructor
  · intro r hr hro hrn hract
    have hpred : (fun x : ScriptRow => x.owner == owner && x.name == name) r
        = true := by
      simp [hro, hrn]
    have hfind : ∃ r2, table.find?
        (fun x => x.owner == owner && x.name == name) = some r2 := by
      rcases hfs : table.find? (fun x => x.owner == owner && x.name == name)
        with _ | r2
      · exact absurd hpred (by simpa using List.find?_eq_none.mp hfs r hr)
      · exact ⟨r2, hfs⟩
    rcases hfind with ⟨r2, hr2⟩
    have hr2mem : r2 ∈ table := List.mem_of_find?_eq_some hr2
    have hr2pred := List.find?_some hr2
    have hr2o : r2.owner = owner := by
      have h := (Bool.and_eq_true _ _).mp hr2pred
      exact eq_of_beq h.1
    have hr2n : r2.name = name := by
      have h := (Bool.and_eq_true _ _).mp hr2pred
      exact eq_of_beq h.2
    have hr2r : r2 = r := huniq r2 hr2mem r hr hr2o hr2n hro hrn
    have haux : ∀ a ∈ table,
        (¬a.owner = owner ∨ ¬a.name = name) ∨ a.active = true := by
      intro x hx
      by_cases hxo : x.owner = owner ∧ x.name = name
      · right
        have hx2 : x = r := huniq x hx r hr hxo.1 hxo.2 hro hrn
        rw [hx2]; exact hract
      · left; exact not_and_or.mp hxo
    constructor
    · simp [deleteScriptRun, hr2, hr2r, hract]
    · simp only [deleteScriptRun, hr2]
      simp [hr2r, hract]
      exact haux
  · intro hch
    by_contra hno
    push_neg at hno
    have haux : ∀ a ∈ table,
        (¬a.owner = owner ∨ ¬a.name = name) ∨ a.active = true := by
      intro x hx
      by_cases hxo : x.owner = owner ∧ x.name = name
      · right
        cases hpa : x.active
        · exact absurd hpa (hno x hx hxo.1 hxo.2)
        · rfl
      · left; exact not_and_or.mp hxo
    apply hch
    cases hfs : table.find? (fun r => r.owner == owner && r.name == name) with
    | none =>
        simp [deleteScriptRun, hfs]
        exact haux
    | some r =>
        by_cases hra : r.active = true
        · simp [deleteScriptRun, hfs, hra]
          exact haux
        · simp [deleteScriptRun, hfs, hra]
          exact haux

/-- Witness for C9: a one-row table holding the active script "r"; the
    delete is refused and the row survives. -/
theorem deleteScript_refuses_active_witness :
    (deleteScriptRun [⟨1, "r", true⟩] 1 "r").1 =
      MSReply.no "Can't delete active script" ∧
    (deleteScriptRun [⟨1, "r", true⟩] 1 "r").2 = [⟨1, "r", true⟩] := by
  have h := deleteScript_refuses_active [⟨1, "r", true⟩] 1 "r" (by decide)
  exact h.1 ⟨1, "r", true⟩ (by simp) rfl rfl rfl

/-! ## Selector trees and Selector::simplify (src/server/selector.cpp)

    A Selector node carries a field, an action, the three string
    arguments s8, s8b and s16 (the unicode argument, modelled as a
    string), the uid set s, the numeric argument n, and its children
    (SelectorData, selector.cpp:87-141).  Selector::simplify consults the
    process-wide flag table through Flag::id, modelled as a parameter
    fid mapping a flag name to its id, with 0 meaning unknown. -/

/-- Selector::Field (selector.h). -/
inductive SField where
  | InternalDate
  | Sent
  | Header
  | Body
  | Rfc822Size
  | Flags
  | Uid
  | Annotation
  | Modseq
  | Age
  | NoField
deriving DecidableEq

/-- Selector::Action (selector.h). -/
inductive SAction where
  | OnDate
  | SinceDate
  | BeforeDate
  | Contains
  | Larger
  | Smaller
  | And
  | Or
  | Not
  | All
  | None
deriving DecidableEq

/-- A Selector tree node. -/
inductive Sel where
  | node (f : SField) (a : SAction) (s8 s8b s16 : String) (s : List Nat)
      (n : Nat) (children : List Sel)

def Sel.f : Sel → SField
  | .node f _ _ _ _ _ _ _ => f

def Sel.a : Sel → SAction
  | .node _ a _ _ _ _ _ _ => a

def Sel.s8 : Sel → String
  | .node _ _ s8 _ _ _ _ _ => s8

def Sel.s8b : Sel → String
  | .node _ _ _ s8b _ _ _ _ => s8b

def Sel.s16 : Sel → String
  | .node _ _ _ _ s16 _ _ _ => s16

def Sel.uids : Sel → List Nat
  | .node _ _ _ _ _ s _ _ => s

def Sel.n : Sel → Nat
  | .node _ _ _ _ _ _ n _ => n

def Sel.children : Sel → List Sel
  | .node _ _ _ _ _ _ _ ch => ch

/-- The And-branch loop of Selector::simplify (selector.cpp:384-401) over
    the already-simplified children: drop children that became All; stop
    with Option.none (the whole node becomes None, its children cleared)
    once a child became None. -/
def andScan : List Sel → Option (List Sel)
  | [] => some []
  | c :: cs =>
    if c.a = .All then andScan cs
    else if c.a = .None then Option.none
    else (andScan cs).map (fun l => c :: l)

/-- The Or-branch loop (selector.cpp:402-419), dually: drop None
    children; Option.none once a child became All. -/
def orScan : List Sel → Option (List Sel)
  | [] => some []
  | c :: cs =>
    if c.a = .None then orScan cs
    else if c.a = .All then Option.none
    else (orScan cs).map (fun l => c :: l)

/-- The flattening loop of Selector::simplify (selector.cpp:432-447):
    children with the same action are removed and their children
    prepended one at a time, which leaves the merged grandchildren in
    reverse order at the front, followed by the untouched children. -/
def flattenStep (a : SAction) (l : List Sel) : List Sel :=
  ((l.filter (fun c => c.a == a)).map Sel.children).flatten.reverse ++
    l.filter (fun c => !(c.a == a))

/-- The body of Selector::simplify after the double-negation copy
    (selector.cpp:332-459), as a function of the node's fields.  `sch`
    is the list of simplified children (used by the And/Or branches,
    which are the only places the source simplifies children) and `rch`
    the raw children (kept untouched by every other branch).  The
    source's early exit from the And/Or loop once the action collapses
    is immaterial: the skipped work is discarded when the children are
    cleared. -/
def simplifyBody (fid : String → Nat) (f : SField) (a : SAction)
    (s8 s8b s16 : String) (s : List Nat) (n : Nat) (sch rch : List Sel) :
    Sel :=
  let step1 : SAction × List Sel :=
    if a = .Larger then
      (if n = 0 ∨ (n = 1 ∧ f = .Modseq) then .All else .Larger, rch)
    else if a = .Contains ∧ f = .Uid then
      (if s.isEmpty then .None else .Contains, rch)
    else if a = .Contains then
      ((match f with
        | .InternalDate => .None
        | .Sent => .None
        | .Header => if s16 = "" ∧ s8 = "" then .All else .Contains
        | .Body => if s16 = "" then .All else .Contains
        | .Flags =>
            if s8 ≠ "\\recent" ∧ fid s8 = 0 then .None else .Contains
        | _ => .Contains), rch)
    else if a = .And then
      (match andScan sch with
       | Option.none => (.None, [])
       | some [] => (.All, [])
       | some l => (.And, l))
    else if a = .Or then
      (match orScan sch with
       | Option.none => (.All, [])
       | some l => (.Or, l))
    else (a, rch)
  let a1 := step1.1
  let ch1 := step1.2
  let f1 := if a1 = .All ∨ a1 = .None then SField.NoField else f
  if ¬ (a1 = .And ∨ a1 = .Or) then .node f1 a1 s8 s8b s16 s n ch1
  else if ch1.isEmpty then .node f1 .All s8 s8b s16 s n ch1
  else
    match flattenStep a1 ch1 with
    | [c] => c
    | ch2 => .node f1 a1 s8 s8b s16 s n ch2

mutual

/-- Embeds Selector::simplify (selector.cpp:324-459).  The first
    equation is the double-negation copy at the top (selector.cpp:326-330):
    when the node and its first child are both Not, the node takes over
    all data of the first grandchild - note the check is not repeated on
    the copied data - and the rest of the body proceeds on that data. -/
def simplify (fid : String → Nat) : Sel → Sel
  | .node _ .Not _ _ _ _ _
      (.node _ .Not _ _ _ _ _
        (.node gf ga gs8 gs8b gs16 gs gn gch :: _) :: _) =>
      simplifyBody fid gf ga gs8 gs8b gs16 gs gn
        (simplifyChildren fid gch) gch
  | .node f a s8 s8b s16 s n ch =>
      simplifyBody fid f a s8 s8b s16 s n (simplifyChildren fid ch) ch

/-- Simplifies each child in order (the p->simplify() calls inside the
    And/Or loops). -/
def simplifyChildren (fid : String → Nat) : List Sel → List Sel
  | [] => []
  | c :: cs => simplify fid c :: simplifyChildren fid cs

end

/-- The double-negation copy in isolation: the data a node holds after
    the first if of Selector::simplify. -/
def stripNN : Sel → Sel
  | .node _ .Not _ _ _ _ _
      (.node _ .Not _ _ _ _ _ (g :: _) :: _) => g
  | t => t

theorem simplifyChildren_eq_map (fid : String → Nat) (l : List Sel) :
    simplifyChildren fid l = l.map (simplify fid) := by
  induction l with
  | nil => rfl
  | cons c cs ih => simp [simplifyChildren, ih]

/-- Selector::simplify is the body applied to the possibly
    double-negation-stripped node data. -/
theorem simplify_eq_strip (fid : String → Nat) (t : Sel) :
    simplify fid t =
      simplifyBody fid (stripNN t).f (stripNN t).a (stripNN t).s8
        (stripNN t).s8b (stripNN t).s16 (stripNN t).uids (stripNN t).n
        (simplifyChildren fid (stripNN t).children) (stripNN t).children := by
  rcases t with ⟨f, a, s8, s8b, s16, s, n, ch⟩
  cases a
  case Not =>
    rcases ch with _ | ⟨c, rest⟩
    · rfl
    rcases c with ⟨cf, ca, cs8, cs8b, cs16, cs, cn, cch⟩
    cases ca
    case Not =>
      rcases cch with _ | ⟨g, grest⟩
      · rfl
      rcases g with ⟨gf, ga, gs8, gs8b, gs16, gs, gn, gch⟩
      rfl
    all_goals rfl
  all_goals rfl

/-! ## Selector SQL translation, fragment (src/server/selector.cpp:619-1317)

    Selector::where() renders a (simplified) tree as an SQL condition,
    threading the root's placeholder and join counters, the Query binds
    and the extra join strings.  We embed the self-contained fragment:
    Uid, Flags, Modseq, Rfc822Size and Body leaves and the
    And/Or/Not/All/None connectives of whereNoField.  Header (and with it
    the address-field optimization of whereNoField), Annotation, date and
    Age leaves would drag in the clock, the field tables and the address
    parser; on trees containing them the embedding returns Option.none,
    and the Or-loop's search for address fields (selector.cpp:1250-1255)
    never finds one on supported trees. -/

/-- A value bound to a placeholder. -/
inductive BindVal where
  | int (v : Nat)
  | str (v : String)
  | uidSet (v : List Nat)
deriving DecidableEq

/-- The compilation state on the root Selector and its Query
    (SelectorData: placeholder, join, the Query's binds, extraJoins and
    the join-need flags used by the fragment). -/
structure WhereSt where
  placeholder : Nat
  join : Nat
  binds : List (Nat × BindVal)
  extraJoins : List String
  needMessages : Bool
  needBodyparts : Bool
deriving DecidableEq

/-- The initial compilation state. -/
def whereSt0 : WhereSt := ⟨0, 0, [], [], false, false⟩

/-- Selector::placeHolder (selector.cpp:287-296) followed by a
    Query::bind of the new index. -/
def bindPH (st : WhereSt) (v : BindVal) : Nat × WhereSt :=
  let i := st.placeholder + 1
  (i, { st with placeholder := i, binds := st.binds ++ [(i, v)] })

/-- Embeds Selector::whereSet (selector.cpp:1072-1095) for the canonical
    (sorted, duplicate-free) uid list: empty sets match nothing, large
    sets bind the whole set once, two-element sets bind smallest and
    largest, singletons bind the one uid. -/
def whereSet (s : List Nat) (st : WhereSt) : String × WhereSt :=
  if s.isEmpty then ("false", st)
  else if 2 < s.length then
    let r := bindPH st (.uidSet s)
    ("mm.uid=any($" ++ fn r.1 ++ ")", r.2)
  else if s.length = 2 then
    let u := st.placeholder + 1
    let u2 := st.placeholder + 2
    ("(mm.uid=$" ++ fn u ++ " or mm.uid=$" ++ fn u2 ++ ")",
     { st with placeholder := u2,
               binds := st.binds ++ [(u, .int (s.min?.getD 0)),
                                     (u2, .int (s.max?.getD 0))] })
  else
    let r := bindPH st (.int (s.min?.getD 0))
    ("mm.uid=$" ++ fn r.1, r.2)

/-- Embeds Selector::whereFlags (selector.cpp:1029-1065): the recent
    pseudo-flag is answered from the session's recent set ("false"
    without a session); other flags join the flags table, by interned id
    when Flag::id knows the name, else through a bound subselect on
    flag_names. -/
def whereFlags (fid : String → Nat) (recent : Option (List Nat))
    (s8 : String) (st : WhereSt) : String × WhereSt :=
  if s8 = "\\recent" then
    match recent with
    | Option.none => ("false", st)
    | some uids => whereSet uids st
  else
    let jn := st.join + 1
    let fv := fid s8
    if fv ≠ 0 then
      ("f" ++ fn jn ++ ".flag is not null",
       { st with join := jn,
                 extraJoins := st.extraJoins ++
                   [" left join flags f" ++ fn jn ++ " on (mm.mailbox=f" ++
                    fn jn ++ ".mailbox and mm.uid=f" ++ fn jn ++
                    ".uid and f" ++ fn jn ++ ".flag=" ++ fn fv ++ ")"] })
    else
      let r := bindPH { st with join := jn } (.str (asciiLower s8))
      ("f" ++ fn jn ++ ".flag is not null",
       { r.2 with
           extraJoins := r.2.extraJoins ++
             [" left join flags f" ++ fn jn ++ " on (mm.mailbox=f" ++
              fn jn ++ ".mailbox and mm.uid=f" ++ fn jn ++
              ".uid and f" ++ fn jn ++
              ".flag=(select id from flag_names where lower(name)=$" ++
              fn r.1 ++ "))"] })

/-- Embeds Selector::whereModseq (selector.cpp:1194-1206). -/
def whereModseq (a : SAction) (n : Nat) (st : WhereSt) : String × WhereSt :=
  let r := bindPH st (.int n)
  if a = .Larger then ("mm.modseq>=$" ++ fn r.1, r.2)
  else if a = .Smaller then ("mm.modseq<$" ++ fn r.1, r.2)
  else ("false", r.2)

/-- Embeds Selector::whereRfc822Size (selector.cpp:1011-1022); actions
    other than Smaller/Larger take the setError path, outside the
    fragment. -/
def whereRfc822Size (a : SAction) (n : Nat) (st : WhereSt) :
    Option (String × WhereSt) :=
  let st0 := { st with needMessages := true }
  let r := bindPH st0 (.int n)
  if a = .Smaller then some ("m.rfc822size<$" ++ fn r.1, r.2)
  else if a = .Larger then some ("m.rfc822size>$" ++ fn r.1, r.2)
  else Option.none

/-- Boolean string suffix test over the character lists. -/
def strEnds (s suf : String) : Bool :=
  s.data.drop (s.data.length - suf.data.length) == suf.data

/-- The Not branch of Selector::whereNoField (selector.cpp:1299-1308):
    negate the child's condition, flipping true/false and rewriting a
    trailing " is not null" to " is null". -/
def notText (c : String) : String :=
  if c = "true" then "false"
  else if c = "false" then "true"
  else if strEnds c " is not null" then
    ⟨c.data.take (c.data.length - 8)⟩ ++ "null"
  else "not " ++ c

/-- The And/Or tail of Selector::whereNoField (selector.cpp:1285-1297)
    on the translated children: an And with a false child is false, an
    Or with a true child is false (the source really returns "false"
    there), and otherwise the remaining conditions are parenthesized and
    joined. -/
def andOrText (a : SAction) (ws : List String) (st : WhereSt) :
    String × WhereSt :=
  let conditions := ws.filter (fun w => !(w == "true") && !(w == "false"))
  let hasT := ws.any (fun w => w == "true")
  let hasF := ws.any (fun w => w == "false")
  if a = .And then
    if hasF then ("false", st)
    else ("(" ++ String.intercalate " and " conditions ++ ")", st)
  else
    if hasT then ("false", st)
    else ("(" ++ String.intercalate " or " conditions ++ ")", st)

mutual

/-- Embeds Selector::where (selector.cpp:619-659) on the supported
    fragment, dispatching on the field, with whereNoField
    (selector.cpp:1239-1317) inlined for the NoField case. -/
def whereTrans (fid : String → Nat) (recent : Option (List Nat))
    (ts : Bool) (tscfg : String) : Sel → WhereSt →
    Option (String × WhereSt)
  | .node f a s8 _ s16 s n ch, st =>
    match f with
    | .Uid => some (whereSet s st)
    | .Flags => some (whereFlags fid recent s8 st)
    | .Modseq => some (whereModseq a n st)
    | .Rfc822Size => whereRfc822Size a n st
    | .Body =>
        let r := whereBody ts tscfg st.placeholder s16
        some (r.sql,
          { st with placeholder := r.placeholder,
                    binds := st.binds ++ [(r.bind.1, .str r.bind.2)],
                    needBodyparts := true })
    | .NoField =>
        match a, ch with
        | .And, ch =>
            if ch.isEmpty then some ("true", st)
            else if ch.any (fun c => c.f == SField.Header) then Option.none
            else
              match whereListTrans fid recent ts tscfg ch st with
              | Option.none => Option.none
              | some (ws, st1) => some (andOrText .And ws st1)
        | .Or, ch =>
            if ch.isEmpty then some ("false", st)
            else if ch.any (fun c => c.f == SField.Header) then Option.none
            else
              match whereListTrans fid recent ts tscfg ch st with
              | Option.none => Option.none
              | some (ws, st1) => some (andOrText .Or ws st1)
        | .Not, c :: _ =>
            match whereTrans fid recent ts tscfg c st with
            | Option.none => Option.none
            | some (w, st1) => some (notText w, st1)
        | .All, _ => some ("true", st)
        | .None, _ => some ("false", st)
        | _, _ => Option.none
    | _ => Option.none

/-- Translates the children of an And/Or in order, threading the
    state. -/
def whereListTrans (fid : String → Nat) (recent : Option (List Nat))
    (ts : Bool) (tscfg : String) : List Sel → WhereSt →
    Option (List String × WhereSt)
  | [], st => some ([], st)
  | c :: cs, st =>
    match whereTrans fid recent ts tscfg c st with
    | Option.none => Option.none
    | some (w, st1) =>
        match whereListTrans fid recent ts tscfg cs st1 with
        | Option.none => Option.none
        | some (ws, st2) => some (w :: ws, st2)

end

/-- Shorthand: a leaf with a numeric argument, as the Selector(Field,
    Action, uint) constructor builds it (selector.cpp:171-177). -/
def numLeaf (f : SField) (a : SAction) (n : Nat) : Sel :=
  .node f a "" "" "" [] n []

/-- Shorthand: a Not node with one child, as Selector::fromString and the
    search parsers build it. -/
def selNot (c : Sel) : Sel := .node .NoField .Not "" "" "" [] 0 [c]

/-- Whether the double-negation copy of Selector::simplify
    (selector.cpp:326-330) fires on this node: the node and its first
    child are both Not and the first child has a child. -/
def isNN : Sel → Bool
  | .node _ .Not _ _ _ _ _ (.node _ .Not _ _ _ _ _ (_ :: _) :: _) => true
  | _ => false

theorem stripNN_eq_self (t : Sel) (h : isNN t = false) : stripNN t = t := by
  rcases t with ⟨f, a, s8, s8b, s16, s, n, ch⟩
  cases a
  case Not =>
    rcases ch with _ | ⟨c, rest⟩
    · rfl
    rcases c with ⟨cf, ca, cs8, cs8b, cs16, cs, cn, cch⟩
    cases ca
    case Not =>
      rcases cch with _ | ⟨g, grest⟩
      · rfl
      · exact absurd h (by simp [isNN])
    all_goals rfl
  all_goals rfl

theorem stripNN_selNot_selNot (x : Sel) : stripNN (selNot (selNot x)) = x := by
  rcases x with ⟨f, a, s8, s8b, s16, s, n, ch⟩
  rfl

/-- C6 (amended): for every Selector subtree x that is not itself a
    double negation, simplifying Not(Not(x)) yields simplify(x), and
    hence the SQL translation of the simplified Not(Not(x)) equals the
    translation of simplify(x).  (The restriction is forced: the copy at
    selector.cpp:326-330 is not re-examined after firing, so for a
    doubly negated x, simplify(Not(Not(x))) = x while simplify(x) strips
    the inner double negation.) -/
theorem simplify_notnot_eq_simplify (fid : String → Nat)
    (recent : Option (List Nat)) (ts : Bool) (tscfg : String)
    (st : WhereSt) (x : Sel) (h : isNN x = false) :
    simplify fid (selNot (selNot x)) = simplify fid x ∧
    whereTrans fid recent ts tscfg (simplify fid (selNot (selNot x))) st =
      whereTrans fid recent ts tscfg (simplify fid x) st := by
  have h1 : simplify fid (selNot (selNot x)) = simplify fid x := by
    rw [simplify_eq_strip fid (selNot (selNot x)), simplify_eq_strip fid x,
        stripNN_selNot_selNot, stripNN_eq_self x h]
  exact ⟨h1, by rw [h1]⟩

/-- Witness for C6: a modseq-free leaf under a double negation. -/
theorem simplify_notnot_eq_simplify_witness :
    simplify (fun _ => 0)
        (selNot (selNot (numLeaf .Rfc822Size .Larger 5))) =
      simplify (fun _ => 0) (numLeaf .Rfc822Size .Larger 5) ∧
    whereTrans (fun _ => 0) Option.none false ""
        (simplify (fun _ => 0)
          (selNot (selNot (numLeaf .Rfc822Size .Larger 5)))) whereSt0 =
      whereTrans (fun _ => 0) Option.none false ""
        (simplify (fun _ => 0) (numLeaf .Rfc822Size .Larger 5)) whereSt0 :=
  simplify_notnot_eq_simplify (fun _ => 0) Option.none false "" whereSt0
    (numLeaf .Rfc822Size .Larger 5) (by rfl)

/-- The doubly negated size leaf used as counterexample input. -/
def dblNegLeaf : Sel := selNot (selNot (numLeaf .Rfc822Size .Larger 5))

/-- C6 counterexample: for x itself a double negation - here
    x = Not(Not(RFC822SIZE > 5)) - simplify(Not(Not(x))) is x, not
    simplify(x), and the raw SQL translation of Not(Not(x)) is the
    quadruply negated condition, not the translation of simplify(x). -/
theorem simplify_double_negation_counterexample :
    simplify (fun _ => 0) (selNot (selNot dblNegLeaf)) ≠
      simplify (fun _ => 0) dblNegLeaf ∧
    whereTrans (fun _ => 0) Option.none false ""
        (selNot (selNot dblNegLeaf)) whereSt0 ≠
      whereTrans (fun _ => 0) Option.none false ""
        (simplify (fun _ => 0) dblNegLeaf) whereSt0 := by
  constructor
  · intro h
    have h2 := congrArg Sel.a h
    have e1 : (simplify (fun _ => 0) (selNot (selNot dblNegLeaf))).a =
        SAction.Not := rfl
    have e2 : (simplify (fun _ => 0) dblNegLeaf).a = SAction.Larger := rfl
    rw [e1, e2] at h2
    exact absurd h2 (by decide)
  · intro h
    have e1 : whereTrans (fun _ => 0) Option.none false ""
        (selNot (selNot dblNegLeaf)) whereSt0 =
        some ("not not not not m.rfc822size>$1",
          ⟨1, 0, [(1, .int 5)], [], true, false⟩) := by decide
    have e2 : whereTrans (fun _ => 0) Option.none false ""
        (simplify (fun _ => 0) dblNegLeaf) whereSt0 =
        some ("m.rfc822size>$1",
          ⟨1, 0, [(1, .int 5)], [], true, false⟩) := by decide
    rw [e1, e2] at h
    exact absurd h (by decide)

/-- C5 counterexample: simplify is not idempotent.  On the well-formed
    quadruple negation Not(Not(Not(Not(RFC822SIZE > 5)))) one pass
    strips only the outer double negation (the copy at
    selector.cpp:326-330 is not repeated), leaving Not(Not(leaf)); a
    second pass strips the rest, so simplify(simplify(t)) differs from
    simplify(t). -/
theorem simplify_not_idempotent_on_quadruple_negation :
    simplify (fun _ => 0) (selNot (selNot dblNegLeaf)) = dblNegLeaf ∧
    simplify (fun _ => 0) dblNegLeaf = numLeaf .Rfc822Size .Larger 5 ∧
    simplify (fun _ => 0)
        (simplify (fun _ => 0) (selNot (selNot dblNegLeaf))) ≠
      simplify (fun _ => 0) (selNot (selNot dblNegLeaf)) := by
  refine ⟨rfl, rfl, ?_⟩
  intro h
  have h2 := congrArg Sel.a h
  have e1 : (simplify (fun _ => 0)
      (simplify (fun _ => 0) (selNot (selNot dblNegLeaf)))).a =
      SAction.Larger := rfl
  have e2 : (simplify (fun _ => 0) (selNot (selNot dblNegLeaf))).a =
      SAction.Not := rfl
  rw [e1, e2] at h2
  exact absurd h2 (by decide)

/-! ### Idempotence of simplify on double-negation-free trees

    The counterexample above forces a restriction: we prove simplify
    idempotent on well-formed trees (shaped as the Selector constructors
    build them) in which no Not node has a Not child.  The proof goes
    through a syntactic normal form: simplify lands in it, and it is a
    fixpoint of simplify. -/

mutual

/-- Tree size, for strong induction. -/
def Sel.sz : Sel → Nat
  | .node _ _ _ _ _ _ _ ch => 1 + szL ch

def szL : List Sel → Nat
  | [] => 0
  | c :: cs => Sel.sz c + szL cs

end

theorem sz_mem_le (c : Sel) : ∀ l : List Sel, c ∈ l → Sel.sz c ≤ szL l := by
  intro l
  induction l with
  | nil => intro h; cases h
  | cons x xs ih =>
      intro h
      rcases List.mem_cons.mp h with h | h
      · subst h; simp [szL]
      · have := ih h
        simp [szL]
        omega

theorem sz_child_lt (c : Sel) (f : SField) (a : SAction) (s8 s8b s16 : String)
    (s : List Nat) (n : Nat) (ch : List Sel) (h : c ∈ ch) :
    Sel.sz c < Sel.sz (.node f a s8 s8b s16 s n ch) := by
  have := sz_mem_le c ch h
  simp [Sel.sz]
  omega

/-- Strong induction on tree size. -/
theorem Sel.strongInd (P : Sel → Prop)
    (step : ∀ t : Sel, (∀ c : Sel, Sel.sz c < Sel.sz t → P c) → P t) :
    ∀ t, P t := by
  have H : ∀ N, ∀ u : Sel, Sel.sz u ≤ N → P u := by
    intro N
    induction N with
    | zero =>
        intro u hu
        exact step u (fun c hc => absurd (Nat.lt_of_lt_of_le hc hu)
          (Nat.not_lt_zero _))
    | succ N ihN =>
        intro u hu
        exact step u (fun c hc => ihN c (by omega))
  exact fun t => H (Sel.sz t) t le_rfl

mutual

/-- Well-formedness: the shapes the Selector constructors
    (selector.cpp:158-254) and Selector::fromString build.  Composite
    and constant nodes carry NoField; Not has exactly one child; All,
    None and the leaf actions have no children. -/
def wfb : Sel → Bool
  | .node f a _ _ _ _ _ ch =>
    match a with
    | .And => f == SField.NoField && wfbL ch
    | .Or => f == SField.NoField && wfbL ch
    | .Not =>
        f == SField.NoField &&
        (match ch with
         | [c] => wfb c
         | _ => false)
    | .All => f == SField.NoField && ch.isEmpty
    | .None => f == SField.NoField && ch.isEmpty
    | _ => ch.isEmpty

def wfbL : List Sel → Bool
  | [] => true
  | c :: cs => wfb c && wfbL cs

end

mutual

/-- No node of the tree is a double negation: no Not node has a Not
    first child. -/
def nnb : Sel → Bool
  | .node _ a _ _ _ _ _ ch =>
    (match a, ch with
     | .Not, c :: _ => !(c.a == SAction.Not)
     | _, _ => true) && nnbL ch

def nnbL : List Sel → Bool
  | [] => true
  | c :: cs => nnb c && nnbL cs

end

mutual

/-- The normal form simplify produces: constants are bare, Not wraps a
    non-Not child, And/Or have at least two children none of which is a
    constant or shares the action, and no leaf branch of
    Selector::simplify fires. -/
def simpb (fid : String → Nat) : Sel → Bool
  | .node f a s8 _ s16 s n ch =>
    match a with
    | .All => f == SField.NoField && ch.isEmpty
    | .None => f == SField.NoField && ch.isEmpty
    | .Not =>
        (match ch with
         | [c] => !(c.a == SAction.Not)
         | _ => false)
    | .And =>
        decide (2 ≤ ch.length) && simpbL fid ch &&
        ch.all (fun c => !(c.a == SAction.All) && !(c.a == SAction.None) &&
                         !(c.a == SAction.And))
    | .Or =>
        decide (2 ≤ ch.length) && simpbL fid ch &&
        ch.all (fun c => !(c.a == SAction.All) && !(c.a == SAction.None) &&
                         !(c.a == SAction.Or))
    | .Larger => !(n == 0 || (n == 1 && f == SField.Modseq))
    | .Contains =>
        match f with
        | .Uid => !s.isEmpty
        | .InternalDate => false
        | .Sent => false
        | .Header => !(s16 == "" && s8 == "")
        | .Body => !(s16 == "")
        | .Flags => s8 == "\\recent" || !(fid s8 == 0)
        | _ => true
    | _ => true

def simpbL (fid : String → Nat) : List Sel → Bool
  | [] => true
  | c :: cs => simpb fid c && simpbL fid cs

end

theorem wfbL_iff (l : List Sel) :
    wfbL l = true ↔ ∀ c ∈ l, wfb c = true := by
  induction l with
  | nil => simp [wfbL]
  | cons x xs ih => simp [wfbL, ih]

theorem nnbL_iff (l : List Sel) :
    nnbL l = true ↔ ∀ c ∈ l, nnb c = true := by
  induction l with
  | nil => simp [nnbL]
  | cons x xs ih => simp [nnbL, ih]

theorem simpbL_iff (fid : String → Nat) (l : List Sel) :
    simpbL fid l = true ↔ ∀ c ∈ l, simpb fid c = true := by
  induction l with
  | nil => simp [simpbL]
  | cons x xs ih => simp [simpbL, ih]

theorem map_self_of_fix {f : Sel → Sel} :
    ∀ l : List Sel, (∀ c ∈ l, f c = c) → l.map f = l := by
  intro l
  induction l with
  | nil => intro _; rfl
  | cons x xs ih =>
      intro h
      simp only [List.map_cons]
      rw [h x (List.mem_cons_self x xs), ih (fun c hc => h c (List.mem_cons_of_mem _ hc))]

theorem andScan_all_kept :
    ∀ l : List Sel,
      (∀ c ∈ l, ¬ c.a = SAction.All ∧ ¬ c.a = SAction.None) →
      andScan l = some l := by
  intro l
  induction l with
  | nil => intro _; rfl
  | cons x xs ih =>
      intro h
      have hx := h x (List.mem_cons_self x xs)
      have hxs := ih (fun c hc => h c (List.mem_cons_of_mem _ hc))
      simp [andScan, hx.1, hx.2, hxs]

theorem orScan_all_kept :
    ∀ l : List Sel,
      (∀ c ∈ l, ¬ c.a = SAction.All ∧ ¬ c.a = SAction.None) →
      orScan l = some l := by
  intro l
  induction l with
  | nil => intro _; rfl
  | cons x xs ih =>
      intro h
      have hx := h x (List.mem_cons_self x xs)
      have hxs := ih (fun c hc => h c (List.mem_cons_of_mem _ hc))
      simp [orScan, hx.1, hx.2, hxs]

theorem andScan_some_mem :
    ∀ l l2 : List Sel, andScan l = some l2 →
      ∀ x ∈ l2, x ∈ l ∧ ¬ x.a = SAction.All ∧ ¬ x.a = SAction.None := by
  intro l
  induction l with
  | nil =>
      intro l2 h x hx
      have h2 : some ([] : List Sel) = some l2 := h
      rw [Option.some.injEq] at h2
      subst h2
      cases hx
  | cons c cs ih =>
      intro l2 h x hx
      by_cases h1 : c.a = SAction.All
      · simp only [andScan, if_pos h1] at h
        have := ih l2 h x hx
        exact ⟨List.mem_cons_of_mem _ this.1, this.2⟩
      · by_cases h2 : c.a = SAction.None
        · simp only [andScan, if_neg h1, if_pos h2] at h
          cases h
        · simp only [andScan, if_neg h1, if_neg h2] at h
          rcases ho : andScan cs with _ | l3
          · rw [ho] at h; cases h
          · rw [ho] at h
            simp only [Option.map_some', Option.some.injEq] at h
            subst h
            rcases List.mem_cons.mp hx with hx | hx
            · subst hx; exact ⟨List.mem_cons_self _ _, h1, h2⟩
            · have := ih l3 ho x hx
              exact ⟨List.mem_cons_of_mem _ this.1, this.2⟩

theorem orScan_some_mem :
    ∀ l l2 : List Sel, orScan l = some l2 →
      ∀ x ∈ l2, x ∈ l ∧ ¬ x.a = SAction.All ∧ ¬ x.a = SAction.None := by
  intro l
  induction l with
  | nil =>
      intro l2 h x hx
      have h2 : some ([] : List Sel) = some l2 := h
      rw [Option.some.injEq] at h2
      subst h2
      cases hx
  | cons c cs ih =>
      intro l2 h x hx
      by_cases h1 : c.a = SAction.None
      · simp only [orScan, if_pos h1] at h
        have := ih l2 h x hx
        exact ⟨List.mem_cons_of_mem _ this.1, this.2⟩
      · by_cases h2 : c.a = SAction.All
        · simp only [orScan, if_neg h1, if_pos h2] at h
          cases h
        · simp only [orScan, if_neg h1, if_neg h2] at h
          rcases ho : orScan cs with _ | l3
          · rw [ho] at h; cases h
          · rw [ho] at h
            simp only [Option.map_some', Option.some.injEq] at h
            subst h
            rcases List.mem_cons.mp hx with hx | hx
            · subst hx; exact ⟨List.mem_cons_self _ _, h2, h1⟩
            · have := ih l3 ho x hx
              exact ⟨List.mem_cons_of_mem _ this.1, this.2⟩

theorem flattenStep_id (a : SAction) (l : List Sel)
    (h : ∀ c ∈ l, ¬ c.a = a) : flattenStep a l = l := by
  have h1 : l.filter (fun c => c.a == a) = [] := by
    apply List.filter_eq_nil_iff.mpr
    intro c hc
    simpa using h c hc
  have h2 : l.filter (fun c => !(c.a == a)) = l := by
    apply List.filter_eq_self.mpr
    intro c hc
    simpa using h c hc
  simp [flattenStep, h1, h2]

theorem mem_flattenStep (a : SAction) (l : List Sel) (y : Sel)
    (h : y ∈ flattenStep a l) :
    (∃ p ∈ l, p.a = a ∧ y ∈ p.children) ∨ (y ∈ l ∧ ¬ y.a = a) := by
  simp only [flattenStep, List.mem_append, List.mem_reverse] at h
  rcases h with h | h
  · left
    rcases List.mem_flatten.mp h with ⟨L, hL, hyL⟩
    rcases List.mem_map.mp hL with ⟨p, hp, hpc⟩
    have hpmem := List.mem_filter.mp hp
    exact ⟨p, hpmem.1, by simpa using hpmem.2, by rw [hpc]; exact hyL⟩
  · have hm := List.mem_filter.mp h
    right
    exact ⟨hm.1, by simpa using hm.2⟩

theorem flattenStep_ne_nil (a : SAction) (c : Sel) (cs : List Sel)
    (h : ∀ p ∈ c :: cs, p.a = a → p.children ≠ []) :
    flattenStep a (c :: cs) ≠ [] := by
  intro hfl
  have hparts := List.append_eq_nil.mp hfl
  by_cases hca : c.a = a
  · have hcch : c.children ≠ [] := h c (List.mem_cons_self _ _) hca
    have hcfil : c ∈ (c :: cs).filter (fun x => x.a == a) :=
      List.mem_filter.mpr ⟨List.mem_cons_self _ _, by simp [hca]⟩
    have hmap : c.children ∈
        ((c :: cs).filter (fun x => x.a == a)).map Sel.children :=
      List.mem_map_of_mem _ hcfil
    rcases List.exists_mem_of_ne_nil _ hcch with ⟨y, hy⟩
    have hyfl : y ∈
        (((c :: cs).filter (fun x => x.a == a)).map Sel.children).flatten :=
      List.mem_flatten.mpr ⟨c.children, hmap, hy⟩
    have : (((c :: cs).filter (fun x => x.a == a)).map Sel.children).flatten
        = [] := by
      have := hparts.1
      simpa using this
    rw [this] at hyfl
    cases hyfl
  · have : c ∈ (c :: cs).filter (fun x => !(x.a == a)) :=
      List.mem_filter.mpr ⟨List.mem_cons_self _ _, by simp [hca]⟩
    rw [hparts.2] at this
    cases this

theorem simplifyBody_and (fid : String → Nat) (f : SField)
    (s8 s8b s16 : String) (s : List Nat) (n : Nat) (sch rch : List Sel) :
    simplifyBody fid f .And s8 s8b s16 s n sch rch =
      match andScan sch with
      | Option.none => .node SField.NoField .None s8 s8b s16 s n []
      | some [] => .node SField.NoField .All s8 s8b s16 s n []
      | some l =>
          match flattenStep .And l with
          | [c] => c
          | ch2 => .node f .And s8 s8b s16 s n ch2 := by
  rcases hsc : andScan sch with _ | l
  · simp [simplifyBody, hsc]
  · rcases l with _ | ⟨c0, rest⟩
    · simp [simplifyBody, hsc]
    · simp only [simplifyBody, hsc]
      simp

theorem simplifyBody_or (fid : String → Nat) (f : SField)
    (s8 s8b s16 : String) (s : List Nat) (n : Nat) (sch rch : List Sel) :
    simplifyBody fid f .Or s8 s8b s16 s n sch rch =
      match orScan sch with
      | Option.none => .node SField.NoField .All s8 s8b s16 s n []
      | some [] => .node f .All s8 s8b s16 s n []
      | some l =>
          match flattenStep .Or l with
          | [c] => c
          | ch2 => .node f .Or s8 s8b s16 s n ch2 := by
  rcases hsc : orScan sch with _ | l
  · simp [simplifyBody, hsc]
  · rcases l with _ | ⟨c0, rest⟩
    · simp [simplifyBody, hsc]
    · simp only [simplifyBody, hsc]
      simp

/-- Every tree in the normal form is a fixpoint of simplify. -/
theorem simplify_of_simpb (fid : String → Nat) :
    ∀ t : Sel, simpb fid t = true → simplify fid t = t := by
  apply Sel.strongInd (fun t => simpb fid t = true → simplify fid t = t)
  intro t IH hs
  rcases t with ⟨f, a, s8, s8b, s16, s, n, ch⟩
  have hstrip : stripNN (Sel.node f a s8 s8b s16 s n ch) =
      Sel.node f a s8 s8b s16 s n ch := by
    apply stripNN_eq_self
    cases a
    case Not =>
      rcases ch with _ | ⟨c, rest⟩
      · rfl
      rcases rest with _ | ⟨d, rest2⟩
      · have hs2 : (!(c.a == SAction.Not)) = true := hs
        rcases c with ⟨cf, ca, cs8, cs8b, cs16, cs, cn, cch⟩
        cases ca
        case Not => exact absurd hs2 (by simp [Sel.a])
        all_goals rfl
      · exact absurd hs (by simp [simpb])
    all_goals rfl
  rw [simplify_eq_strip fid, hstrip]
  simp only [Sel.f, Sel.a, Sel.s8, Sel.s8b, Sel.s16, Sel.uids, Sel.n,
    Sel.children]
  cases a
  case OnDate => simp [simplifyBody]
  case SinceDate => simp [simplifyBody]
  case BeforeDate => simp [simplifyBody]
  case Smaller => simp [simplifyBody]
  case Not => simp [simplifyBody]
  case All =>
    have h1 : (f == SField.NoField && ch.isEmpty) = true := hs
    obtain ⟨hf, hch⟩ := (Bool.and_eq_true _ _).mp h1
    have hf2 : f = SField.NoField := by simpa using hf
    have hch2 : ch = [] := by simpa using hch
    subst hf2; subst hch2
    simp [simplifyBody]
  case None =>
    have h1 : (f == SField.NoField && ch.isEmpty) = true := hs
    obtain ⟨hf, hch⟩ := (Bool.and_eq_true _ _).mp h1
    have hf2 : f = SField.NoField := by simpa using hf
    have hch2 : ch = [] := by simpa using hch
    subst hf2; subst hch2
    simp [simplifyBody]
  case Larger =>
    have h1 : (!(n == 0 || (n == 1 && f == SField.Modseq))) = true := hs
    have hcond : ¬(n = 0 ∨ (n = 1 ∧ f = SField.Modseq)) := by
      intro hc
      rcases hc with hc | ⟨hc1, hc2⟩
      · simp [hc] at h1
      · simp [hc1, hc2] at h1
    simp [simplifyBody, hcond]
  case Contains =>
    cases f
    case InternalDate => exact Bool.noConfusion hs
    case Sent => exact Bool.noConfusion hs
    case Uid =>
      have h1 : (!s.isEmpty) = true := hs
      have h2 : s.isEmpty = false := by simpa using h1
      simp [simplifyBody, h2]
    case Header =>
      have h1 : (!(s16 == "" && s8 == "")) = true := hs
      have hcond : ¬(s16 = "" ∧ s8 = "") := by
        intro hc
        simp [hc.1, hc.2] at h1
      simp [simplifyBody, hcond]
    case Body =>
      have h1 : (!(s16 == "")) = true := hs
      have h2 : ¬ s16 = "" := by simpa using h1
      simp [simplifyBody, h2]
    case Flags =>
      have h1 : (s8 == "\\recent" || !(fid s8 == 0)) = true := hs
      have hcond : ¬(¬ s8 = "\\recent" ∧ fid s8 = 0) := by
        intro hc
        simp [hc.2] at h1
        exact hc.1 h1
      simp [simplifyBody, hcond]
    case Rfc822Size => simp [simplifyBody]
    case Annotation => simp [simplifyBody]
    case Modseq => simp [simplifyBody]
    case Age => simp [simplifyBody]
    case NoField => simp [simplifyBody]
  case And =>
    have h1 : (decide (2 ≤ ch.length) && simpbL fid ch &&
        ch.all (fun c => !(c.a == SAction.All) && !(c.a == SAction.None) &&
                         !(c.a == SAction.And))) = true := hs
    have hAB := ((Bool.and_eq_true _ _).mp h1).1
    have hC := ((Bool.and_eq_true _ _).mp h1).2
    have hA := ((Bool.and_eq_true _ _).mp hAB).1
    have hB := ((Bool.and_eq_true _ _).mp hAB).2
    have hlen : 2 ≤ ch.length := of_decide_eq_true hA
    have hchfix : ∀ c ∈ ch, simplify fid c = c := fun c hc =>
      IH c (sz_child_lt c f .And s8 s8b s16 s n ch hc)
        ((simpbL_iff fid ch).mp hB c hc)
    have hmap : simplifyChildren fid ch = ch := by
      rw [simplifyChildren_eq_map]; exact map_self_of_fix ch hchfix
    have hprops : ∀ c ∈ ch, ¬ c.a = SAction.All ∧ ¬ c.a = SAction.None ∧
        ¬ c.a = SAction.And := by
      intro c hc
      have hx := List.all_eq_true.mp hC c hc
      have hx1 := ((Bool.and_eq_true _ _).mp hx).1
      have hx2 := ((Bool.and_eq_true _ _).mp hx).2
      have hy1 := ((Bool.and_eq_true _ _).mp hx1).1
      have hy2 := ((Bool.and_eq_true _ _).mp hx1).2
      exact ⟨by simpa using hy1, by simpa using hy2, by simpa using hx2⟩
    rw [hmap, simplifyBody_and,
      andScan_all_kept ch (fun c hc => ⟨(hprops c hc).1, (hprops c hc).2.1⟩)]
    have hflat : flattenStep .And ch = ch :=
      flattenStep_id _ _ (fun c hc => (hprops c hc).2.2)
    rcases ch with _ | ⟨c0, _ | ⟨c1, rest⟩⟩
    · exact absurd hlen (by simp)
    · exact absurd hlen (by simp)
    · have hgoal : (match flattenStep .And (c0 :: c1 :: rest) with
          | [c] => c
          | ch2 => Sel.node f .And s8 s8b s16 s n ch2) =
          Sel.node f .And s8 s8b s16 s n (c0 :: c1 :: rest) := by
        rw [hflat]
      exact hgoal
  case Or =>
    have h1 : (decide (2 ≤ ch.length) && simpbL fid ch &&
        ch.all (fun c => !(c.a == SAction.All) && !(c.a == SAction.None) &&
                         !(c.a == SAction.Or))) = true := hs
    have hAB := ((Bool.and_eq_true _ _).mp h1).1
    have hC := ((Bool.and_eq_true _ _).mp h1).2
    have hA := ((Bool.and_eq_true _ _).mp hAB).1
    have hB := ((Bool.and_eq_true _ _).mp hAB).2
    have hlen : 2 ≤ ch.length := of_decide_eq_true hA
    have hchfix : ∀ c ∈ ch, simplify fid c = c := fun c hc =>
      IH c (sz_child_lt c f .Or s8 s8b s16 s n ch hc)
        ((simpbL_iff fid ch).mp hB c hc)
    have hmap : simplifyChildren fid ch = ch := by
      rw [simplifyChildren_eq_map]; exact map_self_of_fix ch hchfix
    have hprops : ∀ c ∈ ch, ¬ c.a = SAction.All ∧ ¬ c.a = SAction.None ∧
        ¬ c.a = SAction.Or := by
      intro c hc
      have hx := List.all_eq_true.mp hC c hc
      have hx1 := ((Bool.and_eq_true _ _).mp hx).1
      have hx2 := ((Bool.and_eq_true _ _).mp hx).2
      have hy1 := ((Bool.and_eq_true _ _).mp hx1).1
      have hy2 := ((Bool.and_eq_true _ _).mp hx1).2
      exact ⟨by simpa using hy1, by simpa using hy2, by simpa using hx2⟩
    rw [hmap, simplifyBody_or,
      orScan_all_kept ch (fun c hc => ⟨(hprops c hc).1, (hprops c hc).2.1⟩)]
    have hflat : flattenStep .Or ch = ch :=
      flattenStep_id _ _ (fun c hc => (hprops c hc).2.2)
    rcases ch with _ | ⟨c0, _ | ⟨c1, rest⟩⟩
    · exact absurd hlen (by simp)
    · exact absurd hlen (by simp)
    · have hgoal : (match flattenStep .Or (c0 :: c1 :: rest) with
          | [c] => c
          | ch2 => Sel.node f .Or s8 s8b s16 s n ch2) =
          Sel.node f .Or s8 s8b s16 s n (c0 :: c1 :: rest) := by
        rw [hflat]
      exact hgoal

theorem simpb_and_parts (fid : String → Nat) (p : Sel)
    (hp : simpb fid p = true) (ha : p.a = SAction.And) :
    2 ≤ p.children.length ∧
    (∀ y ∈ p.children, simpb fid y = true) ∧
    (∀ y ∈ p.children, ¬ y.a = SAction.All ∧ ¬ y.a = SAction.None ∧
      ¬ y.a = SAction.And) := by
  rcases p with ⟨pf, pa, ps8, ps8b, ps16, ps, pn, pch⟩
  have ha2 : pa = SAction.And := ha
  subst ha2
  have h1 : (decide (2 ≤ pch.length) && simpbL fid pch &&
      pch.all (fun c => !(c.a == SAction.All) && !(c.a == SAction.None) &&
                        !(c.a == SAction.And))) = true := hp
  have hAB := ((Bool.and_eq_true _ _).mp h1).1
  have hC := ((Bool.and_eq_true _ _).mp h1).2
  refine ⟨of_decide_eq_true ((Bool.and_eq_true _ _).mp hAB).1, ?_, ?_⟩
  · exact fun y hy =>
      (simpbL_iff fid pch).mp ((Bool.and_eq_true _ _).mp hAB).2 y hy
  · intro y hy
    have hx := List.all_eq_true.mp hC y hy
    have hx1 := ((Bool.and_eq_true _ _).mp hx).1
    have hx2 := ((Bool.and_eq_true _ _).mp hx).2
    have hy1 := ((Bool.and_eq_true _ _).mp hx1).1
    have hy2 := ((Bool.and_eq_true _ _).mp hx1).2
    exact ⟨by simpa using hy1, by simpa using hy2, by simpa using hx2⟩

theorem simpb_or_parts (fid : String → Nat) (p : Sel)
    (hp : simpb fid p = true) (ha : p.a = SAction.Or) :
    2 ≤ p.children.length ∧
    (∀ y ∈ p.children, simpb fid y = true) ∧
    (∀ y ∈ p.children, ¬ y.a = SAction.All ∧ ¬ y.a = SAction.None ∧
      ¬ y.a = SAction.Or) := by
  rcases p with ⟨pf, pa, ps8, ps8b, ps16, ps, pn, pch⟩
  have ha2 : pa = SAction.Or := ha
  subst ha2
  have h1 : (decide (2 ≤ pch.length) && simpbL fid pch &&
      pch.all (fun c => !(c.a == SAction.All) && !(c.a == SAction.None) &&
                        !(c.a == SAction.Or))) = true := hp
  have hAB := ((Bool.and_eq_true _ _).mp h1).1
  have hC := ((Bool.and_eq_true _ _).mp h1).2
  refine ⟨of_decide_eq_true ((Bool.and_eq_true _ _).mp hAB).1, ?_, ?_⟩
  · exact fun y hy =>
      (simpbL_iff fid pch).mp ((Bool.and_eq_true _ _).mp hAB).2 y hy
  · intro y hy
    have hx := List.all_eq_true.mp hC y hy
    have hx1 := ((Bool.and_eq_true _ _).mp hx).1
    have hx2 := ((Bool.and_eq_true _ _).mp hx).2
    have hy1 := ((Bool.and_eq_true _ _).mp hx1).1
    have hy2 := ((Bool.and_eq_true _ _).mp hx1).2
    exact ⟨by simpa using hy1, by simpa using hy2, by simpa using hx2⟩

theorem simpb_and_intro (fid : String → Nat) (f : SField)
    (s8 s8b s16 : String) (s : List Nat) (n : Nat) (ch : List Sel)
    (hlen : 2 ≤ ch.length)
    (hsub : ∀ y ∈ ch, simpb fid y = true)
    (hprops : ∀ y ∈ ch, ¬ y.a = SAction.All ∧ ¬ y.a = SAction.None ∧
      ¬ y.a = SAction.And) :
    simpb fid (.node f .And s8 s8b s16 s n ch) = true := by
  show (decide (2 ≤ ch.length) && simpbL fid ch &&
      ch.all (fun c => !(c.a == SAction.All) && !(c.a == SAction.None) &&
                       !(c.a == SAction.And))) = true
  refine (Bool.and_eq_true _ _).mpr ⟨(Bool.and_eq_true _ _).mpr
    ⟨decide_eq_true hlen, (simpbL_iff fid ch).mpr hsub⟩, ?_⟩
  refine List.all_eq_true.mpr (fun y hy => ?_)
  have e1 : (y.a == SAction.All) = false := by simpa using (hprops y hy).1
  have e2 : (y.a == SAction.None) = false := by simpa using (hprops y hy).2.1
  have e3 : (y.a == SAction.And) = false := by simpa using (hprops y hy).2.2
  simp [e1, e2, e3]

theorem simpb_or_intro (fid : String → Nat) (f : SField)
    (s8 s8b s16 : String) (s : List Nat) (n : Nat) (ch : List Sel)
    (hlen : 2 ≤ ch.length)
    (hsub : ∀ y ∈ ch, simpb fid y = true)
    (hprops : ∀ y ∈ ch, ¬ y.a = SAction.All ∧ ¬ y.a = SAction.None ∧
      ¬ y.a = SAction.Or) :
    simpb fid (.node f .Or s8 s8b s16 s n ch) = true := by
  show (decide (2 ≤ ch.length) && simpbL fid ch &&
      ch.all (fun c => !(c.a == SAction.All) && !(c.a == SAction.None) &&
                       !(c.a == SAction.Or))) = true
  refine (Bool.and_eq_true _ _).mpr ⟨(Bool.and_eq_true _ _).mpr
    ⟨decide_eq_true hlen, (simpbL_iff fid ch).mpr hsub⟩, ?_⟩
  refine List.all_eq_true.mpr (fun y hy => ?_)
  have e1 : (y.a == SAction.All) = false := by simpa using (hprops y hy).1
  have e2 : (y.a == SAction.None) = false := by simpa using (hprops y hy).2.1
  have e3 : (y.a == SAction.Or) = false := by simpa using (hprops y hy).2.2
  simp [e1, e2, e3]

/-- On a well-formed tree without double negations, simplify lands in
    the normal form. -/
theorem simpb_simplify (fid : String → Nat) :
    ∀ t : Sel, wfb t = true → nnb t = true →
      simpb fid (simplify fid t) = true := by
  apply Sel.strongInd
    (fun t => wfb t = true → nnb t = true →
      simpb fid (simplify fid t) = true)
  intro t IH hwf hnn
  rcases t with ⟨f, a, s8, s8b, s16, s, n, ch⟩
  have hstrip : stripNN (Sel.node f a s8 s8b s16 s n ch) =
      Sel.node f a s8 s8b s16 s n ch := by
    apply stripNN_eq_self
    cases a
    case Not =>
      rcases ch with _ | ⟨c, rest⟩
      · rfl
      have h0 : (!(c.a == SAction.Not) && nnbL (c :: rest)) = true := hnn
      have hna := ((Bool.and_eq_true _ _).mp h0).1
      rcases c with ⟨cf, ca, cs8, cs8b, cs16, cs, cn, cch⟩
      cases ca
      case Not => exact absurd hna (by simp [Sel.a])
      all_goals rfl
    all_goals rfl
  rw [simplify_eq_strip fid, hstrip]
  simp only [Sel.f, Sel.a, Sel.s8, Sel.s8b, Sel.s16, Sel.uids, Sel.n,
    Sel.children]
  cases a
  case OnDate => simp [simplifyBody, simpb]
  case SinceDate => simp [simplifyBody, simpb]
  case BeforeDate => simp [simplifyBody, simpb]
  case Smaller => simp [simplifyBody, simpb]
  case All =>
    have h1 : (f == SField.NoField && ch.isEmpty) = true := hwf
    obtain ⟨hf, hch⟩ := (Bool.and_eq_true _ _).mp h1
    have hf2 : f = SField.NoField := by simpa using hf
    have hch2 : ch = [] := by simpa using hch
    subst hf2; subst hch2
    simp [simplifyBody, simpb]
  case None =>
    have h1 : (f == SField.NoField && ch.isEmpty) = true := hwf
    obtain ⟨hf, hch⟩ := (Bool.and_eq_true _ _).mp h1
    have hf2 : f = SField.NoField := by simpa using hf
    have hch2 : ch = [] := by simpa using hch
    subst hf2; subst hch2
    simp [simplifyBody, simpb]
  case Not =>
    rcases ch with _ | ⟨c, rest⟩
    · exact absurd hwf (by simp [wfb])
    rcases rest with _ | ⟨d, rest2⟩
    · have hn0 : (!(c.a == SAction.Not) && nnbL [c]) = true := hnn
      have hna := ((Bool.and_eq_true _ _).mp hn0).1
      have hnaf : (c.a == SAction.Not) = false := by simpa using hna
      simp [simplifyBody, simpb, hnaf]
    · exact absurd hwf (by simp [wfb])
  case Larger =>
    have hch : ch = [] := by
      have h1 : ch.isEmpty = true := hwf
      simpa using h1
    subst hch
    by_cases hcond : n = 0 ∨ (n = 1 ∧ f = SField.Modseq)
    · simp [simplifyBody, hcond, simpb]
    · have h2 : ¬ n = 0 ∧ (¬ n = 1 ∨ ¬ f = SField.Modseq) := by
        constructor
        · intro hc; exact hcond (Or.inl hc)
        · by_cases hn1 : n = 1
          · right; intro hfm; exact hcond (Or.inr ⟨hn1, hfm⟩)
          · left; exact hn1
      simp [simplifyBody, hcond, simpb]
      rcases h2.2 with hx | hx
      · simp [hx, h2.1]
      · simp [hx, h2.1]
  case Contains =>
    have hch : ch = [] := by
      have h1 : ch.isEmpty = true := hwf
      simpa using h1
    subst hch
    cases f
    case Uid =>
      by_cases hse : s.isEmpty = true
      · simp [simplifyBody, hse, simpb]
      · have hse2 : s.isEmpty = false := by
          cases hx : s.isEmpty
          · rfl
          · exact absurd hx hse
        simp [simplifyBody, hse2, simpb]
    case InternalDate => simp [simplifyBody, simpb]
    case Sent => simp [simplifyBody, simpb]
    case Header =>
      by_cases hcond : s16 = "" ∧ s8 = ""
      · simp [simplifyBody, hcond, simpb]
      · simp [simplifyBody, hcond, simpb]
        exact not_and_or.mp hcond
    case Body =>
      by_cases hcond : s16 = ""
      · simp [simplifyBody, hcond, simpb]
      · simp [simplifyBody, hcond, simpb]
    case Flags =>
      by_cases hcond : ¬ s8 = "\\recent" ∧ fid s8 = 0
      · simp [simplifyBody, hcond, simpb]
      · simp [simplifyBody, hcond, simpb]
        rcases not_and_or.mp hcond with hy | hy
        · left; simpa using hy
        · right; exact hy
    case Rfc822Size => simp [simplifyBody, simpb]
    case Annotation => simp [simplifyBody, simpb]
    case Modseq => simp [simplifyBody, simpb]
    case Age => simp [simplifyBody, simpb]
    case NoField => simp [simplifyBody, simpb]
  case And =>
    have h1 : (f == SField.NoField && wfbL ch) = true := hwf
    have hwfch := ((Bool.and_eq_true _ _).mp h1).2
    have hn1 : (true && nnbL ch) = true := hnn
    have hnnch := ((Bool.and_eq_true _ _).mp hn1).2
    have hsimpch : ∀ c ∈ ch, simpb fid (simplify fid c) = true := fun c hc =>
      IH c (sz_child_lt c f .And s8 s8b s16 s n ch hc)
        ((wfbL_iff ch).mp hwfch c hc) ((nnbL_iff ch).mp hnnch c hc)
    rw [simplifyBody_and, simplifyChildren_eq_map]
    rcases hsc : andScan (ch.map (simplify fid)) with _ | l
    · simp [simpb]
    · rcases l with _ | ⟨x0, xs⟩
      · simp [simpb]
      · have hmem : ∀ y ∈ x0 :: xs, simpb fid y = true ∧
            ¬ y.a = SAction.All ∧ ¬ y.a = SAction.None := by
          intro y hy
          have h2 := andScan_some_mem _ _ hsc y hy
          rcases List.mem_map.mp h2.1 with ⟨c, hc, hcy⟩
          exact ⟨hcy ▸ hsimpch c hc, h2.2⟩
        have hchne : ∀ p ∈ x0 :: xs, p.a = SAction.And →
            p.children ≠ [] := by
          intro p hp hpa hnil
          have hlp := (simpb_and_parts fid p ((hmem p hp).1) hpa).1
          rw [hnil] at hlp
          simp at hlp
        have hne := flattenStep_ne_nil .And x0 xs hchne
        have hflmem : ∀ y ∈ flattenStep .And (x0 :: xs),
            simpb fid y = true ∧ ¬ y.a = SAction.All ∧
            ¬ y.a = SAction.None ∧ ¬ y.a = SAction.And := by
          intro y hy
          rcases mem_flattenStep _ _ _ hy with ⟨p, hp, hpa, hyp⟩ | ⟨hyl, hyna⟩
          · have hparts := simpb_and_parts fid p ((hmem p hp).1) hpa
            exact ⟨hparts.2.1 y hyp, hparts.2.2 y hyp⟩
          · exact ⟨(hmem y hyl).1, (hmem y hyl).2.1, (hmem y hyl).2.2, hyna⟩
        rcases hfl : flattenStep .And (x0 :: xs) with _ | ⟨y0, _ | ⟨y1, ys⟩⟩
        · exact absurd hfl hne
        · rw [hfl] at hflmem
          show simpb fid (match flattenStep SAction.And (x0 :: xs) with
              | [c] => c
              | ch2 => Sel.node f SAction.And s8 s8b s16 s n ch2) = true
          rw [hfl]
          exact (hflmem y0 (List.mem_cons_self _ _)).1
        · rw [hfl] at hflmem
          show simpb fid (match flattenStep SAction.And (x0 :: xs) with
              | [c] => c
              | ch2 => Sel.node f SAction.And s8 s8b s16 s n ch2) = true
          rw [hfl]
          exact simpb_and_intro fid f s8 s8b s16 s n (y0 :: y1 :: ys)
            (by simp) (fun y hy => (hflmem y hy).1)
            (fun y hy => (hflmem y hy).2)
  case Or =>
    have h1 : (f == SField.NoField && wfbL ch) = true := hwf
    have hf : f = SField.NoField := by
      simpa using ((Bool.and_eq_true _ _).mp h1).1
    have hwfch := ((Bool.and_eq_true _ _).mp h1).2
    have hn1 : (true && nnbL ch) = true := hnn
    have hnnch := ((Bool.and_eq_true _ _).mp hn1).2
    have hsimpch : ∀ c ∈ ch, simpb fid (simplify fid c) = true := fun c hc =>
      IH c (sz_child_lt c f .Or s8 s8b s16 s n ch hc)
        ((wfbL_iff ch).mp hwfch c hc) ((nnbL_iff ch).mp hnnch c hc)
    subst hf
    rw [simplifyBody_or, simplifyChildren_eq_map]
    rcases hsc : orScan (ch.map (simplify fid)) with _ | l
    · simp [simpb]
    · rcases l with _ | ⟨x0, xs⟩
      · simp [simpb]
      · have hmem : ∀ y ∈ x0 :: xs, simpb fid y = true ∧
            ¬ y.a = SAction.All ∧ ¬ y.a = SAction.None := by
          intro y hy
          have h2 := orScan_some_mem _ _ hsc y hy
          rcases List.mem_map.mp h2.1 with ⟨c, hc, hcy⟩
          exact ⟨hcy ▸ hsimpch c hc, h2.2⟩
        have hchne : ∀ p ∈ x0 :: xs, p.a = SAction.Or →
            p.children ≠ [] := by
          intro p hp hpa hnil
          have hlp := (simpb_or_parts fid p ((hmem p hp).1) hpa).1
          rw [hnil] at hlp
          simp at hlp
        have hne := flattenStep_ne_nil .Or x0 xs hchne
        have hflmem : ∀ y ∈ flattenStep .Or (x0 :: xs),
            simpb fid y = true ∧ ¬ y.a = SAction.All ∧
            ¬ y.a = SAction.None ∧ ¬ y.a = SAction.Or := by
          intro y hy
          rcases mem_flattenStep _ _ _ hy with ⟨p, hp, hpa, hyp⟩ | ⟨hyl, hyna⟩
          · have hparts := simpb_or_parts fid p ((hmem p hp).1) hpa
            exact ⟨hparts.2.1 y hyp, hparts.2.2 y hyp⟩
          · exact ⟨(hmem y hyl).1, (hmem y hyl).2.1, (hmem y hyl).2.2, hyna⟩
        rcases hfl : flattenStep .Or (x0 :: xs) with _ | ⟨y0, _ | ⟨y1, ys⟩⟩
        · exact absurd hfl hne
        · rw [hfl] at hflmem
          show simpb fid (match flattenStep SAction.Or (x0 :: xs) with
              | [c] => c
              | ch2 => Sel.node SField.NoField SAction.Or s8 s8b s16 s n
                  ch2) = true
          rw [hfl]
          exact (hflmem y0 (List.mem_cons_self _ _)).1
        · rw [hfl] at hflmem
          show simpb fid (match flattenStep SAction.Or (x0 :: xs) with
              | [c] => c
              | ch2 => Sel.node SField.NoField SAction.Or s8 s8b s16 s n
                  ch2) = true
          rw [hfl]
          exact simpb_or_intro fid SField.NoField s8 s8b s16 s n
            (y0 :: y1 :: ys)
            (by simp) (fun y hy => (hflmem y hy).1)
            (fun y hy => (hflmem y hy).2)

/-- C5 (amended): on every well-formed Selector tree (shaped as the
    Selector constructors build it: Not unary, composite and constant
    nodes field-less, leaves childless) that contains no double
    negation, simplify is idempotent.  The restriction is forced by the
    counterexample above: one pass of Selector::simplify removes only
    the outermost double negation of a Not chain. -/
theorem simplify_idempotent_of_wf_nn (fid : String → Nat) (t : Sel)
    (hwf : wfb t = true) (hnn : nnb t = true) :
    simplify fid (simplify fid t) = simplify fid t :=
  simplify_of_simpb fid _ (simpb_simplify fid t hwf hnn)

/-- Witness for C5: a concrete And of a size leaf and a uid-set leaf,
    with a Not above the size leaf. -/
theorem simplify_idempotent_of_wf_nn_witness :
    simplify (fun _ => 0)
        (simplify (fun _ => 0)
          (Sel.node .NoField .And "" "" "" [] 0
            [selNot (numLeaf .Rfc822Size .Larger 5),
             Sel.node .Uid .Contains "" "" "" [3, 5] 0 []])) =
      simplify (fun _ => 0)
        (Sel.node .NoField .And "" "" "" [] 0
          [selNot (numLeaf .Rfc822Size .Larger 5),
           Sel.node .Uid .Contains "" "" "" [3, 5] 0 []]) :=
  simplify_idempotent_of_wf_nn (fun _ => 0) _ (by rfl) (by rfl)

/-! ## C7: Sieve require checking (src/sieve/sievescript.cpp 45-127,
    src/sieve/sieveproduction.cpp 783-945).

    The textual phase (SieveParser::commands, in sieveparser.cpp, which is
    not under src/) produces the list of commands with their identifiers
    and arguments; that list is this embedding's input.  A SieveArgument
    is exactly one of a tag, a number or a string list (the accessors of
    the other kinds return empty/0/null, embedded by svTag, svNumber and
    svList).  The fragment embedded here is the test- and block-free
    command set - the theorems' hypotheses exclude if/elsif/else (whose
    bodies carry tests and blocks) and redirect (whose address check needs
    AddressParser, not under src/). -/

inductive SvArg where
  | tagA (t : String)
  | numA (v : Nat)
  | listA (l : List String)
deriving DecidableEq

structure SvCmd where
  ident : String
  args : List SvArg
deriving DecidableEq

/-- A command after SieveCommand::parse: its own error (setError keeps the
    first message), one error slot per argument, and the requirePermitted
    mark set by SieveScript::parse's first loop. -/
structure PvCmd where
  ident : String
  args : List SvArg
  requirePermitted : Bool
  err : String
  argErrs : List String
deriving DecidableEq

def svNumber : SvArg → Nat
  | .numA v => v
  | _ => 0

def svTag : SvArg → String
  | .tagA t => t
  | _ => ""

def svList : SvArg → Option (List String)
  | .listA l => some l
  | _ => Option.none

/-- UString::isAscii. -/
def isAsciiStr (s : String) : Bool := s.data.all (fun c => decide (c.toNat < 128))

/-- setError keeps the first nonempty message, so a sequence of checks
    records the first error among them. -/
def firstErr (l : List String) : String :=
  match l.find? (fun e => !(e == "")) with
  | some e => e
  | _ => ""

/-- SieveProduction::supportedExtensions (sieveproduction.cpp). -/
def svSupported : List String :=
  ["envelope", "fileinto", "reject", "body", "subaddress"]

/-- The Cyrus-syntax suggestion: mid(6), split on dots, join with slashes
    (sieveproduction.cpp:920-921). -/
def cyrusAox (m : String) : String :=
  String.intercalate "/" ((m.drop 6).splitOn ".")

/-- The per-argument checks of SieveCommand::parse (sieveproduction.cpp:
    863-945) for a command with the mailboxes or extensions flag; returns
    the argument's first recorded error, or the empty string. -/
def argCheck (validName : String → Bool) (ident : String)
    (mailboxes extensions : Bool) (a : SvArg) : String :=
  if svNumber a ≠ 0 then
    "Number not permitted as argument to command " ++ ident
  else if svTag a ≠ "" then
    "Tag not permitted as argument to command " ++ ident
  else if mailboxes then
    firstErr
      ((if (svList a).isNone ∨ ((svList a).getD []).length ≠ 1 then
          ["Must have exactly one mailbox name"]
        else []) ++
       ((svList a).getD []).map (fun m =>
         if ¬ (validName m ∨ validName ("/" ++ m)) then
           "Each string must be a mailbox name. This one is not: " ++ m
         else if strStarts m "INBOX." then
           strQuoted m ++ " is Cyrus syntax. Archiveopteryx uses " ++
             strQuoted (cyrusAox m)
         else ""))
  else if extensions then
    let e := (((svList a).getD []).filter
        (fun x => !(svSupported.contains x))).map strQuoted
    if e.isEmpty then ""
    else "Each string must be a supported sieve extension. These are not: "
           ++ String.intercalate ", " e
  else ""

/-- SieveCommand::parse (sieveproduction.cpp:783-945) for the test- and
    block-free fragment: if/elsif/else/redirect are outside the fragment
    (they fall into the unknown-command branch here, hence the fragment
    hypothesis on the theorems).  Mailbox::validName is not under src/ and
    is a parameter.  setError's first-error-wins order is the source's:
    empty name, dispatch, minargs, maxargs. -/
def cmdParse (validName : String → Bool) (c : SvCmd)
    (requirePermitted : Bool) : PvCmd :=
  let i := c.ident
  let known := i = "require" ∨ i = "stop" ∨ i = "reject" ∨ i = "fileinto"
      ∨ i = "keep" ∨ i = "discard"
  let mailboxes := i = "fileinto"
  let extensions := i = "require"
  let minargs : Nat := if i = "require" ∨ i = "fileinto" then 1 else 0
  let identErr : String :=
    if i = "" then "Command name is empty"
    else if i = "require" then
      if requirePermitted then ""
      else "require is only permitted as the first command."
    else if known then ""
    else "Command unknown: " ++ i
  let minErr : String :=
    if minargs ≠ 0 ∧ c.args.length < minargs then
      i ++ ": Too few arguments (" ++ fn c.args.length ++
        ", minimum required is " ++ fn minargs ++ ")"
    else ""
  let maxErr : String :=
    if i = "require" then ""
    else
      let maxargs : Nat := if i = "fileinto" then 1 else 0
      if maxargs < c.args.length then
        i ++ ": Too many arguments (" ++ fn c.args.length ++
          ", maximum allowed is " ++ fn maxargs ++ ")"
      else ""
  let argErrs : List String :=
    if mailboxes ∨ extensions then
      c.args.map (argCheck validName i mailboxes extensions)
    else c.args.map (fun _ => "")
  { ident := i, args := c.args, requirePermitted := requirePermitted,
    err := firstErr [identErr, minErr, maxErr], argErrs := argErrs }

/-- SieveScript::parse's first loop (sievescript.cpp:61-65): the leading
    run of require commands is marked requirePermitted; everything from
    the first other command on is not. -/
def markPerm : List SvCmd → List (SvCmd × Bool)
  | [] => []
  | c :: cs =>
    if c.ident = "require" then (c, true) :: markPerm cs
    else (c, false) :: cs.map (fun d => (d, false))

/-- The semantic pass (sievescript.cpp:68-75) over the fragment: the
    previous identifier only matters to elsif/else, which are outside the
    fragment, so each command parses independently. -/
def phase2 (validName : String → Bool) (cs : List SvCmd) : List PvCmd :=
  (markPerm cs).map (fun cp => cmdParse validName cp.1 cp.2)

/-- Modelled from the spec: SieveParser::extensionsNeeded (sieveparser.cpp
    is not under src/) returns the deduplicated list of extensions the
    script's productions registered via SieveProduction::require; within
    the fragment only fileinto registers one, "fileinto"
    (sieveproduction.cpp:824). -/
def neededExtensions (cs : List SvCmd) : List String :=
  ((cs.map (fun c =>
      if c.ident = "fileinto" then ["fileinto"] else [])).flatten).dedup

/-- The first argument's string list, as read by sievescript.cpp:85-88
    (null when the first argument is a tag or number, iterated as empty). -/
def reqListOfArgs (args : List SvArg) : List String :=
  match args.head? with
  | some (SvArg.listA l) => l
  | _ => []

/-- The unused-extension loop of SieveScript::parse (sievescript.cpp:
    81-102): walks the leading require run, splits each error-free
    require's first string list into declared (ASCII and used) and unused,
    records an error on requires with unused entries, and returns the
    updated commands together with the declared list. -/
def requireCheck (needed : List String) :
    List PvCmd → List PvCmd × List String
  | [] => ([], [])
  | c :: cs =>
    if c.ident = "require" then
      let rest := requireCheck needed cs
      if c.err = "" then
        let l := reqListOfArgs c.args
        let declared := l.filter (fun x => isAsciiStr x && needed.contains x)
        let unused := l.filter (fun x => !(isAsciiStr x && needed.contains x))
        let c2 := if unused.isEmpty then c
          else { c with
                 err := "Extension(s) not used: " ++
                   String.intercalate " " unused }
        (c2 :: rest.1, declared ++ rest.2)
      else (c :: rest.1, rest.2)
    else (c :: cs, [])

/-- SieveScript::parse's semantic phases (sievescript.cpp:60-123) on the
    fragment: mark the leading requires, run SieveCommand::parse on each
    command, check the leading requires' lists against the needed
    extensions, and finally record an undeclared-extensions error on the
    first command when fewer extensions are declared than needed. -/
def scriptParse (validName : String → Bool) (cs : List SvCmd) :
    List PvCmd :=
  let needed := neededExtensions cs
  let rc := requireCheck needed (phase2 validName cs)
  let declared := (rc.2 ++
    (if needed.contains "comparator-i;octet" then
       ["comparator-i;octet"] else []) ++
    (if needed.contains "comparator-i;ascii-casemap" then
       ["comparator-i;ascii-casemap"] else [])).dedup
  if needed.length > declared.length then
    match rc.1 with
    | [] => rc.1
    | f :: rest =>
      let undeclared := (needed.filter
          (fun x => !(declared.contains x))).map strQuoted
      let msg :=
        if f.ident = "require" then
          "Extensions used but not declared: " ++
            String.intercalate ", " undeclared
        else
          "Missing require: require [ " ++
            String.intercalate ", " undeclared ++ " ];"
      (if f.err = "" then { f with err := msg } else f) :: rest
  else rc.1

/-- A script is accepted when no command and no argument carries an error
    (SieveParser::bad collects all recorded errors; an empty collection is
    acceptance). -/
def scriptAccepted (validName : String → Bool) (cs : List SvCmd) : Bool :=
  (scriptParse validName cs).all
    (fun c => c.err == "" && c.argErrs.all (fun e => e == ""))

/-- The commands whose parse involves tests, blocks or the address parser,
    outside the embedded fragment. -/
def fragmentOK (cs : List SvCmd) : Bool :=
  cs.all (fun c => !(c.ident == "if") && !(c.ident == "elsif") &&
    !(c.ident == "else") && !(c.ident == "redirect"))

/-- The amended claim's scope: every require carries exactly one
    argument, a string list. -/
def requiresSingleList (cs : List SvCmd) : Bool :=
  cs.all (fun c => !(c.ident == "require") ||
    (match c.args with | [SvArg.listA _] => true | _ => false))

/-- requires lead: after the first non-require command no require occurs. -/
def leadReq (idents : List String) : Bool :=
  (idents.dropWhile (fun i => i == "require")).all (fun i => !(i == "require"))

/-- A require declaring "envelope" in a second string-list argument,
    followed by a fileinto: sievescript.cpp:85-88 reads only the first
    argument's string list, and the maxargs shift at
    sieveproduction.cpp:841-842 lets require take any number of
    arguments, so the unused "envelope" goes unnoticed. -/
def sieveCEx : List SvCmd :=
  [⟨"require", [SvArg.listA ["fileinto"], SvArg.listA ["envelope"]]⟩,
   ⟨"fileinto", [SvArg.listA ["saved"]]⟩]

/-- C7 is refuted as stated: the script declares "envelope", uses only
    "fileinto", and is nevertheless accepted. -/
theorem sieve_unused_extension_accepted :
    scriptAccepted (fun _ => true) sieveCEx = true ∧
    sieveCEx.head? = some ⟨"require",
      [SvArg.listA ["fileinto"], SvArg.listA ["envelope"]]⟩ ∧
    ¬ "envelope" ∈ neededExtensions sieveCEx := by
  refine ⟨by decide, rfl, by decide⟩

theorem cmdParse_ident (v : String → Bool) (c : SvCmd) (p : Bool) :
    (cmdParse v c p).ident = c.ident := rfl

theorem cmdParse_args (v : String → Bool) (c : SvCmd) (p : Bool) :
    (cmdParse v c p).args = c.args := rfl

theorem firstErr_cons_ne (e : String) (l : List String) (h : e ≠ "") :
    firstErr (e :: l) = e := by
  have hb : (!(e == "")) = true := by simp [h]
  simp [firstErr, List.find?_cons_of_pos, hb]

theorem str_append_ne_empty (a b : String) (h : a ≠ "") : a ++ b ≠ "" := by
  intro he
  apply h
  have hd : (a ++ b).data = ([] : List Char) := congrArg String.data he
  cases a with
  | mk da =>
    cases b with
    | mk db => simp_all [String.ext_iff]

theorem cmdParse_require_unpermitted (v : String → Bool)
    (args : List SvArg) :
    (cmdParse v ⟨"require", args⟩ false).err =
      "require is only permitted as the first command." := by
  have h : (cmdParse v ⟨"require", args⟩ false).err =
      firstErr ["require is only permitted as the first command.",
        (if (1 : Nat) ≠ 0 ∧ args.length < 1 then
           "require" ++ ": Too few arguments (" ++ fn args.length ++
             ", minimum required is " ++ fn 1 ++ ")"
         else ""), ""] := rfl
  rw [h]
  exact firstErr_cons_ne _ _ (by decide)

theorem markPerm_fst (cs : List SvCmd) :
    (markPerm cs).map Prod.fst = cs := by
  induction cs with
  | nil => rfl
  | cons c cs ih =>
    by_cases h : c.ident = "require"
    · simp [markPerm, h, ih]
    · simp [markPerm, h, List.map_map]
      exact List.map_id cs

theorem mem_of_mem_markPerm (cs : List SvCmd) (c : SvCmd) (p : Bool)
    (h : (c, p) ∈ markPerm cs) : c ∈ cs := by
  have : (c, p).1 ∈ (markPerm cs).map Prod.fst := List.mem_map_of_mem _ h
  rwa [markPerm_fst] at this

theorem exists_mem_markPerm (cs : List SvCmd) (c : SvCmd) (h : c ∈ cs) :
    ∃ p, (c, p) ∈ markPerm cs := by
  induction cs with
  | nil => cases h
  | cons d cs ih =>
    by_cases hd : d.ident = "require"
    · rcases List.mem_cons.mp h with rfl | hm
      · exact ⟨true, by simp [markPerm, hd]⟩
      · rcases ih hm with ⟨p, hp⟩
        exact ⟨p, by simp [markPerm, hd]; right; exact hp⟩
    · rcases List.mem_cons.mp h with rfl | hm
      · exact ⟨false, by simp [markPerm, hd]⟩
      · refine ⟨false, ?_⟩
        simp [markPerm, hd]
        right
        exact hm

theorem markPerm_leadReq (cs : List SvCmd)
    (h : ∀ cp ∈ markPerm cs, cp.1.ident = "require" → cp.2 = true) :
    leadReq (cs.map SvCmd.ident) = true := by
  induction cs with
  | nil => rfl
  | cons c cs ih =>
    by_cases hc : c.ident = "require"
    · have hr : leadReq (cs.map SvCmd.ident) = true := by
        apply ih
        intro cp hcp
        exact h cp (by simp [markPerm, hc]; right; exact hcp)
      unfold leadReq at hr ⊢
      rw [List.map_cons, List.dropWhile_cons, if_pos (by simpa using hc)]
      exact hr
    · have hnone : ∀ d ∈ cs, d.ident ≠ "require" := by
        intro d hd he
        have := h (d, false) (by
          simp [markPerm, hc]
          right
          exact hd) he
        cases this
      unfold leadReq
      rw [List.map_cons, List.dropWhile_cons, if_neg (by simpa using hc)]
      refine List.all_eq_true.mpr ?_
      intro i hi
      rcases List.mem_cons.mp hi with rfl | hm
      · simpa using hc
      · rcases List.mem_map.mp hm with ⟨d, hd, rfl⟩
        simpa using hnone d hd

theorem mem_phase2 (v : String → Bool) (cs : List SvCmd) (c2 : PvCmd)
    (h : c2 ∈ phase2 v cs) :
    ∃ c ∈ cs, ∃ p, (c, p) ∈ markPerm cs ∧ c2 = cmdParse v c p := by
  rcases List.mem_map.mp h with ⟨cp, hcp, rfl⟩
  exact ⟨cp.1, mem_of_mem_markPerm cs cp.1 cp.2 hcp, cp.2, hcp, rfl⟩

theorem phase2_mem_of_markPerm (v : String → Bool) (cs : List SvCmd)
    (c : SvCmd) (p : Bool) (h : (c, p) ∈ markPerm cs) :
    cmdParse v c p ∈ phase2 v cs := by
  exact List.mem_map_of_mem (fun cp => cmdParse v cp.1 cp.2) h

theorem phase2_idents (v : String → Bool) (cs : List SvCmd) :
    (phase2 v cs).map PvCmd.ident = cs.map SvCmd.ident := by
  unfold phase2
  rw [List.map_map]
  have h1 : ((fun c2 => c2.ident) ∘ fun cp => cmdParse v cp.1 cp.2) =
      (fun cp : SvCmd × Bool => cp.1.ident) := rfl
  rw [h1]
  have h2 : (fun cp : SvCmd × Bool => cp.1.ident) =
      (SvCmd.ident ∘ Prod.fst) := rfl
  rw [h2, ← List.map_map, markPerm_fst]

def unusedOf (needed : List String) (args : List SvArg) : List String :=
  (reqListOfArgs args).filter (fun x => !(isAsciiStr x && needed.contains x))

def declaredOf (needed : List String) (args : List SvArg) : List String :=
  (reqListOfArgs args).filter (fun x => isAsciiStr x && needed.contains x)

theorem requireCheck_cons_req_ok (needed : List String) (c : PvCmd)
    (cs : List PvCmd) (hc : c.ident = "require") (he : c.err = "") :
    requireCheck needed (c :: cs) =
      ((if (unusedOf needed c.args).isEmpty then c
        else { c with err := "Extension(s) not used: " ++
                 String.intercalate " " (unusedOf needed c.args) }) ::
         (requireCheck needed cs).1,
       declaredOf needed c.args ++ (requireCheck needed cs).2) := by
  simp [requireCheck, unusedOf, declaredOf, hc, he]

theorem requireCheck_cons_req_err (needed : List String) (c : PvCmd)
    (cs : List PvCmd) (hc : c.ident = "require") (he : ¬ c.err = "") :
    requireCheck needed (c :: cs) =
      (c :: (requireCheck needed cs).1, (requireCheck needed cs).2) := by
  simp [requireCheck, hc, he]

theorem requireCheck_cons_other (needed : List String) (c : PvCmd)
    (cs : List PvCmd) (hc : ¬ c.ident = "require") :
    requireCheck needed (c :: cs) = (c :: cs, []) := by
  simp [requireCheck, hc]

theorem requireCheck_fst_length (needed : List String) :
    ∀ parsed : List PvCmd,
      (requireCheck needed parsed).1.length = parsed.length := by
  intro parsed
  induction parsed with
  | nil => rfl
  | cons p ps ih =>
    by_cases hp : p.ident = "require"
    · by_cases he : p.err = ""
      · rw [requireCheck_cons_req_ok needed p ps hp he]
        simp [ih]
      · rw [requireCheck_cons_req_err needed p ps hp he]
        simp [ih]
    · rw [requireCheck_cons_other needed p ps hp]

theorem requireCheck_err_back (needed : List String) :
    ∀ parsed : List PvCmd,
      (∀ c ∈ (requireCheck needed parsed).1, c.err = "") →
      ∀ c ∈ parsed, c.err = "" := by
  intro parsed
  induction parsed with
  | nil => intro _ c hc; cases hc
  | cons p ps ih =>
    intro h c hc
    by_cases hp : p.ident = "require"
    · by_cases he : p.err = ""
      · rcases List.mem_cons.mp hc with rfl | hm
        · exact he
        · refine ih ?_ c hm
          intro d hd
          apply h
          rw [requireCheck_cons_req_ok needed p ps hp he]
          exact List.mem_cons_of_mem _ hd
      · exfalso
        apply he
        apply h
        rw [requireCheck_cons_req_err needed p ps hp he]
        exact List.mem_cons_self _ _
    · apply h
      rw [requireCheck_cons_other needed p ps hp]
      exact hc

theorem requireCheck_snd_mem (needed : List String) :
    ∀ parsed : List PvCmd, ∀ x ∈ (requireCheck needed parsed).2,
      needed.contains x = true ∧
        ∃ c ∈ parsed, c.ident = "require" ∧ x ∈ reqListOfArgs c.args := by
  intro parsed
  induction parsed with
  | nil => intro x hx; cases hx
  | cons p ps ih =>
    intro x hx
    by_cases hp : p.ident = "require"
    · by_cases he : p.err = ""
      · rw [requireCheck_cons_req_ok needed p ps hp he] at hx
        rcases List.mem_append.mp hx with hl | hr
        · have hm := List.mem_filter.mp hl
          exact ⟨((Bool.and_eq_true _ _).mp hm.2).2, p,
            List.mem_cons_self _ _, hp, hm.1⟩
        · rcases ih x hr with ⟨h1, c, hc, h2, h3⟩
          exact ⟨h1, c, List.mem_cons_of_mem _ hc, h2, h3⟩
      · rw [requireCheck_cons_req_err needed p ps hp he] at hx
        rcases ih x hx with ⟨h1, c, hc, h2, h3⟩
        exact ⟨h1, c, List.mem_cons_of_mem _ hc, h2, h3⟩
    · rw [requireCheck_cons_other needed p ps hp] at hx
      cases hx

/-- On a script whose requires all lead, acceptance of the unused check
    means every string listed by an error-free require is ASCII and
    needed: otherwise sievescript.cpp:97-99 records the unused error. -/
theorem requireCheck_unused (needed : List String) :
    ∀ parsed : List PvCmd,
      leadReq (parsed.map PvCmd.ident) = true →
      (∀ c ∈ (requireCheck needed parsed).1, c.err = "") →
      ∀ c ∈ parsed, c.ident = "require" →
        ∀ x ∈ reqListOfArgs c.args,
          (isAsciiStr x && needed.contains x) = true := by
  intro parsed
  induction parsed with
  | nil => intro _ _ c hc; cases hc
  | cons p ps ih =>
    intro hlead herr c hc hcid
    by_cases hp : p.ident = "require"
    · have hlead2 : leadReq (ps.map PvCmd.ident) = true := by
        unfold leadReq at hlead ⊢
        rw [List.map_cons, List.dropWhile_cons,
          if_pos (by simpa using hp)] at hlead
        exact hlead
      by_cases he : p.err = ""
      · rw [requireCheck_cons_req_ok needed p ps hp he] at herr
        rcases List.mem_cons.mp hc with rfl | hm
        · by_cases hemp : (unusedOf needed c.args).isEmpty = true
          · intro x hx
            have hnil : unusedOf needed c.args = [] := by
              cases hcase : unusedOf needed c.args with
              | nil => rfl
              | cons a t => rw [hcase] at hemp; simp at hemp
            cases hqx : (!(isAsciiStr x && needed.contains x)) with
            | false => simpa using hqx
            | true =>
              exfalso
              have hxm : x ∈ unusedOf needed c.args :=
                List.mem_filter.mpr ⟨hx, hqx⟩
              rw [hnil] at hxm
              cases hxm
          · exfalso
            have hH := herr _ (List.mem_cons_self _ _)
            rw [if_neg hemp] at hH
            exact str_append_ne_empty _ _ (by decide) hH
        · refine ih hlead2 ?_ c hm hcid
          intro d hd
          exact herr d (List.mem_cons_of_mem _ hd)
      · exfalso
        rw [requireCheck_cons_req_err needed p ps hp he] at herr
        exact he (herr p (List.mem_cons_self _ _))
    · rcases List.mem_cons.mp hc with rfl | hm
      · exact absurd hcid hp
      · exfalso
        unfold leadReq at hlead
        rw [List.map_cons, List.dropWhile_cons,
          if_neg (by simpa using hp)] at hlead
        have hall := List.all_eq_true.mp hlead c.ident
          (List.mem_cons_of_mem _ (List.mem_map_of_mem _ hm))
        simp [hcid] at hall

theorem mem_needed (cs : List SvCmd) (x : String)
    (h : x ∈ neededExtensions cs) : x = "fileinto" := by
  unfold neededExtensions at h
  rw [List.mem_dedup] at h
  rcases List.mem_flatten.mp h with ⟨l, hl, hxl⟩
  rcases List.mem_map.mp hl with ⟨c, _, rfl⟩
  by_cases hid : c.ident = "fileinto"
  · simp [hid] at hxl
    exact hxl
  · simp [hid] at hxl

theorem phase2_length (v : String → Bool) (cs : List SvCmd) :
    (phase2 v cs).length = cs.length := by
  have h := congrArg List.length (phase2_idents v cs)
  simpa using h

theorem contains_mem (l : List String) (x : String)
    (h : l.contains x = true) : x ∈ l :=
  List.mem_of_elem_eq_true h

/-- The declared list after the comparator appends and removeDuplicates
    (sievescript.cpp:103-107). -/
def declaredFull (needed : List String) (parsed : List PvCmd) :
    List String :=
  ((requireCheck needed parsed).2 ++
    (if needed.contains "comparator-i;octet" then
       ["comparator-i;octet"] else []) ++
    (if needed.contains "comparator-i;ascii-casemap" then
       ["comparator-i;ascii-casemap"] else [])).dedup

theorem scriptAccepted_parts (v : String → Bool) (cs : List SvCmd)
    (hacc : scriptAccepted v cs = true) :
    (∀ c ∈ (requireCheck (neededExtensions cs) (phase2 v cs)).1,
        c.err = "") ∧
    ¬ (neededExtensions cs).length >
        (declaredFull (neededExtensions cs) (phase2 v cs)).length := by
  unfold scriptAccepted at hacc
  have hall : ∀ c ∈ scriptParse v cs, c.err = "" := by
    intro c hcm
    have h2 := List.all_eq_true.mp hacc c hcm
    exact eq_of_beq ((Bool.and_eq_true _ _).mp h2).1
  by_cases hlen : (neededExtensions cs).length >
      (declaredFull (neededExtensions cs) (phase2 v cs)).length
  · exfalso
    have hlen' := hlen
    unfold declaredFull at hlen'
    have hne : cs ≠ [] := by
      intro hnil
      rw [hnil] at hlen
      exact Nat.not_lt_zero _ hlen
    obtain ⟨f, rest, hfr⟩ : ∃ f rest,
        (requireCheck (neededExtensions cs) (phase2 v cs)).1 =
          f :: rest := by
      cases hcase : (requireCheck (neededExtensions cs) (phase2 v cs)).1 with
      | nil =>
        exfalso
        have hl1 := requireCheck_fst_length (neededExtensions cs)
          (phase2 v cs)
        rw [hcase] at hl1
        have hl2 : cs.length = 0 := by
          rw [← phase2_length v cs, ← hl1]
          rfl
        exact hne (List.eq_nil_of_length_eq_zero hl2)
      | cons f rest => exact ⟨f, rest, rfl⟩
    have hsp : scriptParse v cs =
        (if f.err = "" then
           { f with err :=
               if f.ident = "require" then
                 "Extensions used but not declared: " ++
                   String.intercalate ", "
                     (((neededExtensions cs).filter (fun x =>
                        !((declaredFull (neededExtensions cs)
                            (phase2 v cs)).contains x))).map strQuoted)
               else
                 "Missing require: require [ " ++
                   String.intercalate ", "
                     (((neededExtensions cs).filter (fun x =>
                        !((declaredFull (neededExtensions cs)
                            (phase2 v cs)).contains x))).map strQuoted) ++
                   " ];" }
         else f) :: rest := by
      simp only [scriptParse]
      rw [if_pos hlen', hfr]
      rfl
    have hcontra := hall _ (by rw [hsp]; exact List.mem_cons_self _ _)
    by_cases hfe : f.err = ""
    · rw [if_pos hfe] at hcontra
      by_cases hfi : f.ident = "require"
      · rw [if_pos hfi] at hcontra
        exact str_append_ne_empty _ _ (by decide) hcontra
      · rw [if_neg hfi] at hcontra
        exact str_append_ne_empty _ _
          (str_append_ne_empty _ _ (by decide)) hcontra
    · rw [if_neg hfe] at hcontra
      exact hfe hcontra
  · have hlen' := hlen
    unfold declaredFull at hlen'
    have heq : scriptParse v cs =
        (requireCheck (neededExtensions cs) (phase2 v cs)).1 := by
      simp only [scriptParse]
      rw [if_neg hlen']
    refine ⟨?_, hlen⟩
    intro c hcm
    apply hall
    rw [heq]
    exact hcm

theorem accepted_leadReq (v : String → Bool) (cs : List SvCmd)
    (hacc : scriptAccepted v cs = true) :
    leadReq (cs.map SvCmd.ident) = true := by
  have hparts := scriptAccepted_parts v cs hacc
  have hperr : ∀ c ∈ phase2 v cs, c.err = "" :=
    requireCheck_err_back _ _ hparts.1
  apply markPerm_leadReq
  intro cp hcp hid
  obtain ⟨c, p⟩ := cp
  cases p with
  | true => rfl
  | false =>
    exfalso
    have hmem := phase2_mem_of_markPerm v cs c false hcp
    have he := hperr _ hmem
    obtain ⟨i, args⟩ := c
    have hid2 : i = "require" := hid
    subst hid2
    rw [cmdParse_require_unpermitted] at he
    exact absurd he (by decide)

theorem accepted_listed_needed (v : String → Bool) (cs : List SvCmd)
    (hacc : scriptAccepted v cs = true) :
    ∀ c ∈ cs, c.ident = "require" → ∀ x ∈ reqListOfArgs c.args,
      x ∈ neededExtensions cs := by
  have hparts := scriptAccepted_parts v cs hacc
  have hleadP : leadReq ((phase2 v cs).map PvCmd.ident) = true := by
    rw [phase2_idents]
    exact accepted_leadReq v cs hacc
  intro c hc hid x hx
  obtain ⟨p, hp⟩ := exists_mem_markPerm cs c hc
  have hmem := phase2_mem_of_markPerm v cs c p hp
  have hkey := requireCheck_unused (neededExtensions cs) (phase2 v cs)
    hleadP hparts.1 (cmdParse v c p) hmem
    (by rw [cmdParse_ident]; exact hid) x
    (by rw [cmdParse_args]; exact hx)
  exact contains_mem _ _ ((Bool.and_eq_true _ _).mp hkey).2

theorem accepted_needed_listed (v : String → Bool) (cs : List SvCmd)
    (hacc : scriptAccepted v cs = true) :
    ∀ x ∈ neededExtensions cs, ∃ c ∈ cs, c.ident = "require" ∧
      x ∈ reqListOfArgs c.args := by
  have hparts := scriptAccepted_parts v cs hacc
  intro x hx
  have hnodupN : (neededExtensions cs).Nodup := List.nodup_dedup _
  have hnodupD :
      (declaredFull (neededExtensions cs) (phase2 v cs)).Nodup :=
    List.nodup_dedup _
  have hsubD : ∀ y ∈ declaredFull (neededExtensions cs) (phase2 v cs),
      y ∈ neededExtensions cs := by
    intro y hy
    unfold declaredFull at hy
    rw [List.mem_dedup] at hy
    rcases List.mem_append.mp hy with hy1 | hy2
    · rcases List.mem_append.mp hy1 with hy3 | hy4
      · exact contains_mem _ _
          (requireCheck_snd_mem (neededExtensions cs) (phase2 v cs)
            y hy3).1
      · by_cases hoct :
            (neededExtensions cs).contains "comparator-i;octet" = true
        · rw [if_pos hoct] at hy4
          rw [List.mem_singleton] at hy4
          rw [hy4]
          exact contains_mem _ _ hoct
        · rw [if_neg hoct] at hy4
          cases hy4
    · by_cases hcm :
          (neededExtensions cs).contains "comparator-i;ascii-casemap" = true
      · rw [if_pos hcm] at hy2
        rw [List.mem_singleton] at hy2
        rw [hy2]
        exact contains_mem _ _ hcm
      · rw [if_neg hcm] at hy2
        cases hy2
  have hlenD := Nat.le_of_not_lt hparts.2
  have hfin : (declaredFull (neededExtensions cs) (phase2 v cs)).toFinset =
      (neededExtensions cs).toFinset := by
    apply Finset.eq_of_subset_of_card_le
    · intro y hy
      rw [List.mem_toFinset] at hy ⊢
      exact hsubD y hy
    · rw [List.toFinset_card_of_nodup hnodupN,
        List.toFinset_card_of_nodup hnodupD]
      exact hlenD
  have hxD : x ∈ declaredFull (neededExtensions cs) (phase2 v cs) := by
    have h1 : x ∈ (neededExtensions cs).toFinset :=
      List.mem_toFinset.mpr hx
    rw [← hfin] at h1
    exact List.mem_toFinset.mp h1
  have hxf : x = "fileinto" := mem_needed cs x hx
  unfold declaredFull at hxD
  rw [List.mem_dedup] at hxD
  rcases List.mem_append.mp hxD with h1 | h2
  · rcases List.mem_append.mp h1 with h3 | h4
    · rcases requireCheck_snd_mem (neededExtensions cs) (phase2 v cs)
        x h3 with ⟨_, c2, hc2, hid2, hxl⟩
      rcases mem_phase2 v cs c2 hc2 with ⟨c0, hc0, p, _, rfl⟩
      refine ⟨c0, hc0, ?_, ?_⟩
      · rw [← cmdParse_ident v c0 p]
        exact hid2
      · rw [← cmdParse_args v c0 p]
        exact hxl
    · exfalso
      by_cases hoct :
          (neededExtensions cs).contains "comparator-i;octet" = true
      · rw [if_pos hoct] at h4
        rw [List.mem_singleton] at h4
        rw [hxf] at h4
        exact absurd h4 (by decide)
      · rw [if_neg hoct] at h4
        cases h4
  · exfalso
    by_cases hcm :
        (neededExtensions cs).contains "comparator-i;ascii-casemap" = true
    · rw [if_pos hcm] at h2
      rw [List.mem_singleton] at h2
      rw [hxf] at h2
      exact absurd h2 (by decide)
    · rw [if_neg hcm] at h2
      cases h2

theorem single_list_shape (args : List SvArg)
    (h : (match args with
      | [SvArg.listA _] => true
      | _ => false) = true) :
    ∃ l, args = [SvArg.listA l] := by
  cases args with
  | nil => cases h
  | cons a rest =>
    cases rest with
    | nil =>
      cases a with
      | listA l => exact ⟨l, rfl⟩
      | tagA t => cases h
      | numA n => cases h
    | cons b r2 =>
      cases a with
      | listA l => cases h
      | tagA t => cases h
      | numA n => cases h

/-- C7 (amended): over the test- and block-free Sieve command fragment,
    for scripts whose require commands each take exactly one string-list
    argument, the parser accepts only if every require precedes all other
    commands, the require lists include every extension the script uses,
    and every listed extension is used; violating any of the three leaves
    an error on some command, so the script is rejected.  (Unrestricted,
    the unused-check half fails: extensions listed in a require's second
    string-list argument are never checked for use — see
    sieve_unused_extension_accepted.) -/
theorem sieve_require_checks (v : String → Bool) (cs : List SvCmd)
    (_hfrag : fragmentOK cs = true)
    (hsingle : requiresSingleList cs = true)
    (hacc : scriptAccepted v cs = true) :
    leadReq (cs.map SvCmd.ident) = true ∧
    (∀ x ∈ neededExtensions cs, ∃ c ∈ cs, c.ident = "require" ∧
       ∃ l, SvArg.listA l ∈ c.args ∧ x ∈ l) ∧
    (∀ c ∈ cs, c.ident = "require" → ∀ l, SvArg.listA l ∈ c.args →
       ∀ x ∈ l, x ∈ neededExtensions cs) := by
  refine ⟨accepted_leadReq v cs hacc, ?_, ?_⟩
  · intro x hx
    rcases accepted_needed_listed v cs hacc x hx with ⟨c, hc, hid, hxl⟩
    refine ⟨c, hc, hid, ?_⟩
    cases hargs : c.args with
    | nil =>
      rw [hargs] at hxl
      cases hxl
    | cons a rest =>
      cases a with
      | listA l =>
        refine ⟨l, List.mem_cons_self _ _, ?_⟩
        rw [hargs] at hxl
        exact hxl
      | tagA t =>
        rw [hargs] at hxl
        cases hxl
      | numA n =>
        rw [hargs] at hxl
        cases hxl
  · intro c hc hid l hl x hx
    have hs := List.all_eq_true.mp hsingle c hc
    have hm : (match c.args with
        | [SvArg.listA _] => true
        | _ => false) = true := by
      rcases (Bool.or_eq_true _ _).mp hs with h1 | h2
      · exfalso
        rw [hid] at h1
        exact absurd h1 (by decide)
      · exact h2
    obtain ⟨l0, hl0⟩ := single_list_shape c.args hm
    rw [hl0] at hl
    rw [List.mem_singleton] at hl
    injection hl with hll
    subst hll
    refine accepted_listed_needed v cs hacc c hc hid x ?_
    rw [hl0]
    exact hx

/-- A single-list require declaring exactly the used extension. -/
def sieveWit : List SvCmd :=
  [⟨"require", [SvArg.listA ["fileinto"]]⟩,
   ⟨"fileinto", [SvArg.listA ["saved"]]⟩]

/-- Witness for C7: the concrete two-command script satisfies the
    hypotheses, and the theorem yields its leading-require property. -/
theorem sieve_require_checks_witness :
    fragmentOK sieveWit = true ∧ requiresSingleList sieveWit = true ∧
    scriptAccepted (fun _ => true) sieveWit = true ∧
    leadReq (sieveWit.map SvCmd.ident) = true :=
  ⟨by decide, by decide, by decide,
   (sieve_require_checks (fun _ => true) sieveWit (by decide) (by decide)
     (by decide)).1⟩

end Aox
